import Mathlib

/-!
The module compose_ui: whitespace-aware insertion, syntax replacement and placeholder text

A shallow embedding of `static/js/compose_ui.js`.

* A JavaScript string is the list of its UTF-16 code units, each written as a `Char`.
* A JavaScript value that may be `undefined` is a `JSValue`.
* The text area, the module variable `full_size_status` and the calls made to
  external libraries are fields of an explicit `State` that every function threads.
-/

namespace compose_ui

/-! ## JavaScript strings and values -/

/-- A JavaScript string: the sequence of its code units. -/
abbrev JSString := List Char

/-- A JavaScript value as far as this module inspects one: `undefined` or a string. -/
inductive JSValue where
  | undefined : JSValue
  | string (s : JSString) : JSValue
  deriving DecidableEq, Repr

/-- The expression `s[i]`: the one-unit string at index `i`, or `undefined` past the end. -/
def index (s : JSString) (i : Nat) : JSValue :=
  match s[i]? with
  | some c => JSValue.string [c]
  | none => JSValue.undefined

/-- The expression `s.slice(0, pos)` for a non-negative `pos`. -/
def slice_to (s : JSString) (pos : Nat) : JSString := s.take pos

/-- The expression `s.slice(pos)` for a non-negative `pos`. -/
def slice_from (s : JSString) (pos : Nat) : JSString := s.drop pos

/-- The expression `s.slice(-1)`: the last code unit as a string, or the empty string. -/
def slice_last (s : JSString) : JSString := s.drop (s.length - 1)

/-- JavaScript truthiness of a value that is `undefined` or a string. -/
def truthy : JSValue → Bool
  | JSValue.undefined => false
  | JSValue.string s => !s.isEmpty

/-! ## The text area and the module state -/

/-- A text area: its content and its selection (a caret is an empty selection). -/
structure Textarea where
  value : JSString
  selectionStart : Nat
  selectionEnd : Nat
  deriving DecidableEq, Repr

/-- A text area holding `text` with the caret (an empty selection) at offset `caret`. -/
def Textarea.at_caret (text : JSString) (caret : Nat) : Textarea :=
  { value := text, selectionStart := caret, selectionEnd := caret }

/-- The call `textarea.val()`. -/
def Textarea.val (t : Textarea) : JSString := t.value

/-- Modelled from the spec: the getter `textarea.caret()` of the jQuery caret plugin, which is
not among the sources; it is the TextBufferAdapter capability get-caret-position, the offset
at which the selection starts. -/
def Textarea.caret (t : Textarea) : Nat := t.selectionStart

/-- Modelled from the spec: the call `textarea.caret(text)` of the jQuery caret plugin, which is
not among the sources; it is the plain caret-based insert of the TextBufferAdapter: `text`
goes in at the caret and the caret moves behind it. -/
def Textarea.caret_insert (t : Textarea) (text : JSString) : Textarea :=
  { value := slice_to t.value t.caret ++ text ++ slice_from t.value t.caret,
    selectionStart := t.caret + text.length,
    selectionEnd := t.caret + text.length }

/-- Modelled from the spec: what a successful `document.execCommand("insertText", false, text)`
does to the focused text area; the browser is not among the sources. It is the
undo-preserving replace-selection of the TextBufferAdapter: the selection is replaced by
`text` and the caret moves behind it. -/
def Textarea.insertText (t : Textarea) (text : JSString) : Textarea :=
  { value := slice_to t.value t.selectionStart ++ text ++ slice_from t.value t.selectionEnd,
    selectionStart := t.selectionStart + text.length,
    selectionEnd := t.selectionStart + text.length }

/-- Modelled from the spec: the setter `textarea.val(text)` of jQuery, which is not among the
sources: the content becomes `text`; a browser then puts the caret at the end. -/
def Textarea.set_val (_t : Textarea) (text : JSString) : Textarea :=
  { value := text, selectionStart := text.length, selectionEnd := text.length }

/-- A call made to a collaborator outside this module (jQuery, autosize), recorded in order. -/
inductive Call where
  | focus : Call
  | autosize_update : Call
  | autosize_destroy : Call
  | autosize_init : Call
  | add_fullscreen_class : Call
  | remove_fullscreen_class : Call
  | show_collapse_button : Call
  | hide_collapse_button : Call
  | show_expand_button : Call
  | hide_expand_button : Call
  deriving DecidableEq, Repr

/-- The module variable, the text area the functions are handed, whether the browser
supports the `insertText` command, and the calls made so far (oldest first). -/
structure State where
  full_size_status : Bool
  textarea : Textarea
  insertText_supported : Bool
  calls : List Call
  deriving DecidableEq, Repr

/-- Record one call to a collaborator. -/
def State.call (st : State) (c : Call) : State := { st with calls := st.calls ++ [c] }

/-- The function `set_full_size`. -/
def set_full_size (st : State) (is_full : Bool) : State :=
  { st with full_size_status := is_full }

/-- The function `is_full_size`. -/
def is_full_size (st : State) : Bool := st.full_size_status

/-- The function `autosize_textarea`. -/
def autosize_textarea (st : State) : State :=
  if !is_full_size st then st.call Call.autosize_update else st

/-! ## smart_insert -/

/-- The local function `is_space` of `smart_insert`. -/
def is_space (c : JSValue) : Bool :=
  decide (c = JSValue.string [' ']) || decide (c = JSValue.string ['\t'])
    || decide (c = JSValue.string ['\n'])

/-- The first `if` of `smart_insert`: the syntax with a space put in front where the caret is
not at offset 0 and neither the text before it ends nor the syntax starts with a space. -/
def leading_padded (pos : Nat) (before_str syn : JSString) : JSString :=
  if decide (pos > 0) && !is_space (JSValue.string (slice_last before_str))
      && !is_space (index syn 0) then
    [' '] ++ syn
  else
    syn

/-- The second `if` of `smart_insert`: the syntax with a space put behind unless the text
after the caret starts or the syntax ends with a space. -/
def trailing_padded (after_str syn : JSString) : JSString :=
  if !((decide (after_str.length > 0) && is_space (index after_str 0))
      || (decide (syn.length > 0) && is_space (JSValue.string (slice_last syn)))) then
    syn ++ [' ']
  else
    syn

/-- The function `smart_insert`; `syn` is its parameter `syntax`. -/
def smart_insert (st : State) (syn : JSString) : State :=
  let pos := st.textarea.caret
  let before_str := slice_to st.textarea.val pos
  let after_str := slice_from st.textarea.val pos
  let syn := leading_padded pos before_str syn
  let syn := trailing_padded after_str syn
  let st := st.call Call.focus
  let st :=
    if st.insertText_supported then
      { st with textarea := st.textarea.insertText syn }
    else
      { st with textarea := st.textarea.caret_insert syn }
  autosize_textarea st

/-- The function `insert_syntax_and_focus`. -/
def insert_syntax_and_focus (st : State) (syn : JSString) : State :=
  smart_insert st syn

/-! ## replace_syntax -/

/-- The method `a.join(sep)` on an array of strings. -/
def join (sep : JSString) : List JSString → JSString
  | [] => []
  | [x] => x
  | x :: y :: rest => x ++ sep ++ join sep (y :: rest)

/-- The method `text.indexOf(pat)`: the least offset at which `pat` occurs in `text`. -/
def indexOf (pat : JSString) : JSString → Option Nat
  | [] => if pat.isPrefixOf [] then some 0 else none
  | c :: t => if pat.isPrefixOf (c :: t) then some 0 else (indexOf pat t).map (· + 1)

/-- A regular expression as far as `replace` uses one: its global (replace-all) flag and
its matcher. `exec text lastIndex` is the match the expression finds in `text` when matching
resumes at `lastIndex`, as the offset and the length of the match, or `none`. -/
structure RegExp where
  global : Bool
  exec : JSString → Nat → Option (Nat × Nat)

/-- A matcher behaves like one: a match starts at or after the offset matching resumed at
and lies within the text. -/
def RegExp.WellFormed (re : RegExp) : Prop :=
  ∀ text lastIndex i len, re.exec text lastIndex = some (i, len) →
    lastIndex ≤ i ∧ i + len ≤ text.length

/-- The regular expression that matches the literal string `w`, with the given global flag. -/
def RegExp.literal (w : JSString) (global : Bool) : RegExp :=
  { global := global,
    exec := fun text lastIndex =>
      if lastIndex > text.length then none
      else (indexOf w (text.drop lastIndex)).map (fun k => (lastIndex + k, w.length)) }

/-- The matches `replace` collects for a regular expression, scanning from `lastIndex`:
one match without the global flag; with it, match after match, each search resuming behind
the previous match (one further after an empty match). `fuel` bounds the number of matches. -/
def RegExp.results (re : RegExp) (text : JSString) : Nat → Nat → List (Nat × Nat)
  | 0, _ => []
  | fuel + 1, lastIndex =>
    match re.exec text lastIndex with
    | none => []
    | some (i, len) =>
      if re.global then
        (i, len) :: RegExp.results re text fuel (if len = 0 then i + len + 1 else i + len)
      else
        [(i, len)]

/-- The result string `replace` builds from the collected matches: the text between the
matches is copied, and each match is replaced by what `replacer` returns for it. -/
def splice (text : JSString) (replacer : JSString → JSString) :
    List (Nat × Nat) → Nat → JSString
  | [], nextSourcePosition => text.drop nextSourcePosition
  | (i, len) :: rest, nextSourcePosition =>
    let position := min i text.length
    if position ≥ nextSourcePosition then
      (text.take position).drop nextSourcePosition ++ replacer ((text.drop i).take len)
        ++ splice text replacer rest (position + ((text.drop i).take len).length)
    else
      splice text replacer rest nextSourcePosition

/-- The first argument of `replace`: a string or a regular expression. -/
inductive Pattern where
  | string (s : JSString) : Pattern
  | regexp (re : RegExp) : Pattern

/-- The method `text.replace(pattern, replacer)` with a function as second argument: a
string pattern replaces its first occurrence, a regular expression its collected matches;
the replacement is what `replacer` returns for the matched text, taken as it is. -/
def replace (text : JSString) (pattern : Pattern) (replacer : JSString → JSString) : JSString :=
  match pattern with
  | Pattern.string s =>
    match indexOf s text with
    | none => text
    | some pos => text.take pos ++ replacer s ++ text.drop (pos + s.length)
  | Pattern.regexp re =>
    splice text replacer (RegExp.results re text (text.length + 2) 0) 0

/-- The function `replace_syntax`, on the text area of the state. -/
def replace_syntax (st : State) ( old_syntax : Pattern) ( new_syntax : JSString) : State :=
  { st with textarea :=
      st.textarea.set_val (replace st.textarea.val old_syntax (fun _ => new_syntax)) }

/-- The specification's replace-all scan, as a relation: scanning `text` left to right with
matching resumed at `lastIndex` and the text copied up to `next`, the pattern's successive
matches cut the rest of the text into the pairs `segs` (the text skipped before a match, the
matched text) and the `tail` behind the last match, in which the pattern finds no match. -/
inductive Scanned (re : RegExp) (text : JSString) :
    Nat → Nat → List (JSString × JSString) → JSString → Prop where
  | done (lastIndex next : Nat) (h : re.exec text lastIndex = none) :
      Scanned re text lastIndex next [] (text.drop next)
  | step (lastIndex next i len : Nat) (segs : List (JSString × JSString)) (tail : JSString)
      (h : re.exec text lastIndex = some (i, len))
      (hrest : Scanned re text (if len = 0 then i + len + 1 else i + len) (i + len) segs tail) :
      Scanned re text lastIndex next
        (((text.take i).drop next, (text.drop i).take len) :: segs) tail

/-- The pairs of a scan put back together, each matched text replaced by `f` of it. -/
def assemble (f : JSString → JSString) (segs : List (JSString × JSString)) (tail : JSString) :
    JSString :=
  (segs.map (fun seg => seg.1 ++ f seg.2)).flatten ++ tail

/-! ## compute_placeholder_text -/

/-- The method `s.split(sep)` for a separator of one code unit. -/
def split (sep : Char) : JSString → List JSString
  | [] => [[]]
  | c :: t =>
    if c = sep then [] :: split sep t
    else
      match split sep t with
      | [] => [[c]]
      | h :: r => (c :: h) :: r

/-- The string a value stands for where one is expected: a string is taken as it is,
unescaped. The specification leaves open what `undefined` contributes to a formatted
message; here, nothing. -/
def JSValue.text : JSValue → JSString
  | JSValue.undefined => []
  | JSValue.string s => s

/-- The value bound to `name` in the values handed to `$t`. -/
def lookup (name : JSString) : List (JSString × JSValue) → JSValue
  | [] => JSValue.undefined
  | (k, v) :: rest => if k = name then v else lookup name rest

/-- The scan of a message behind `$t`: `hole` is `none` in literal text and `some name`
inside braces, where `name` is what was read since the opening brace. -/
def format (values : List (JSString × JSValue)) : Option JSString → JSString → JSString
  | none, [] => []
  | some _, [] => []
  | none, c :: rest =>
    if c = '{' then format values (some []) rest else c :: format values none rest
  | some name, c :: rest =>
    if c = '}' then (lookup name values).text ++ format values none rest
    else format values (some (name ++ [c])) rest

/-- Modelled from the spec: the function `$t` of `./i18n`, which is not among the sources. It
renders the default message (no translation is applied), each `{name}` in it replaced by the
value bound to `name`, unescaped and unmodified. -/
def t (defaultMessage : JSString) (values : List (JSString × JSValue)) : JSString :=
  format values none defaultMessage

/-- A user of the directory, as far as this module reads one. -/
structure Person where
  full_name : JSString
  user_id : Nat
  deriving DecidableEq, Repr

/-- The two lookups `compute_placeholder_text` consumes. -/
structure Directory where
  /-- Modelled from the spec: `people.get_by_email` of `./people`, which is not among the
  sources: the user a recipient reference resolves to, or `none` (JavaScript `undefined`)
  when it cannot be resolved. -/
  get_by_email : JSString → Option Person
  /-- Modelled from the spec: `user_status.get_status_text` of `./user_status`, which is not
  among the sources: the status text of a user, or `undefined`. -/
  get_status_text : Nat → JSValue

/-- What a call can throw. -/
inductive Error where
  | type_error : Error
  deriving DecidableEq, Repr

/-- The expression `people.get_by_email(recipient)` followed by a property read of the
result: reading a property of `undefined` throws a `TypeError`. -/
def get_user (dir : Directory) (recipient : JSString) : Except Error Person :=
  match dir.get_by_email recipient with
  | some user => Except.ok user
  | none => Except.error Error.type_error

/-- The fields of the argument `opts` that `compute_placeholder_text` reads. -/
structure Opts where
  message_type : JSValue
  stream : JSValue
  topic : JSValue
  private_message_recipient : JSValue
  deriving DecidableEq, Repr

/-- The part of `compute_placeholder_text` after the stream block: the text for private
messages, or the default text. -/
def private_placeholder_text (dir : Directory) (opts : Opts) : Except Error JSString := do
  if truthy opts.private_message_recipient then
    let recipient_list := split ',' opts.private_message_recipient.text
    let full_names ← recipient_list.mapM (fun recipient => do
      let user ← get_user dir recipient
      pure user.full_name)
    let recipient_names := join ", ".toList full_names
    if recipient_list.length = 1 then
      let user ← get_user dir (recipient_list.headD [])
      let status := dir.get_status_text user.user_id
      if truthy status then
        return t "Message {recipient_name} ({recipient_status})".toList
          [("recipient_name".toList, JSValue.string recipient_names),
           ("recipient_status".toList, status)]
    return t "Message {recipient_names}".toList
      [("recipient_names".toList, JSValue.string recipient_names)]
  return t "Compose your message here".toList []

/-- The function `compute_placeholder_text`. -/
def compute_placeholder_text (dir : Directory) (opts : Opts) : Except Error JSString :=
  if opts.message_type = JSValue.string "stream".toList then
    if truthy opts.topic then
      pure (t "Message #{stream_name} > {topic_name}".toList
        [("stream_name".toList, opts.stream), ("topic_name".toList, opts.topic)])
    else if truthy opts.stream then
      pure (t "Message #{stream_name}".toList [("stream_name".toList, opts.stream)])
    else
      private_placeholder_text dir opts
  else
    private_placeholder_text dir opts

/-- A directory to run examples against: Alice (user 1) and Bob (user 2) are known by their
addresses, and Alice has the status text given. -/
def Directory.sample (alice_status : JSValue) : Directory :=
  { get_by_email := fun recipient =>
      if recipient = "alice@example.com".toList then
        some { full_name := "Alice".toList, user_id := 1 }
      else if recipient = "bob@example.com".toList then
        some { full_name := "Bob".toList, user_id := 2 }
      else
        none
    get_status_text := fun user_id => if user_id = 1 then alice_status else JSValue.undefined }

/-! ## The full-size mode -/

/-- The function `make_compose_box_full_size`. -/
def make_compose_box_full_size (st : State) : State :=
  let st := set_full_size st true
  let st := st.call Call.autosize_destroy
  let st := st.call Call.add_fullscreen_class
  let st := st.call Call.show_collapse_button
  let st := st.call Call.hide_expand_button
  st.call Call.focus

/-- The function `make_compose_box_original_size`. -/
def make_compose_box_original_size (st : State) : State :=
  let st := set_full_size st false
  let st := st.call Call.remove_fullscreen_class
  let st := st.call Call.autosize_init
  let st := st.call Call.hide_collapse_button
  let st := st.call Call.show_expand_button
  st.call Call.focus

/-- One call of a mode function: `enter` is `make_compose_box_full_size`, `exit` is
`make_compose_box_original_size`. -/
inductive ModeCall where
  | enter : ModeCall
  | exit : ModeCall
  deriving DecidableEq, Repr

/-- The state after one call of a mode function. -/
def ModeCall.run (c : ModeCall) (st : State) : State :=
  match c with
  | ModeCall.enter => make_compose_box_full_size st
  | ModeCall.exit => make_compose_box_original_size st

/-- The state after a sequence of calls of the mode functions, first call first. -/
def run_mode_calls (st : State) (cs : List ModeCall) : State :=
  cs.foldl (fun s c => c.run s) st

/-! ## wrap_text_with_markdown -/

/-- The expression `s.substring(a, b)`. -/
def substring (s : JSString) (a b : Nat) : JSString := (s.take (max a b)).drop (min a b)

/-- What `textarea.range()` returns: where the selection starts and stops and the text it
holds. -/
structure Range where
  start : Nat
  stop : Nat
  text : JSString
  deriving DecidableEq, Repr

/-- Modelled from the spec: the getter `textarea.range()` of the jQuery caret plugin, which is
not among the sources: the selection of the text area and the selected text. -/
def Textarea.range (t : Textarea) : Range :=
  { start := t.selectionStart, stop := t.selectionEnd,
    text := substring t.value t.selectionStart t.selectionEnd }

/-- Modelled from the spec: the call `textarea.range(start, stop)` of the jQuery caret plugin,
which is not among the sources: the selection becomes the given range. -/
def Textarea.set_range (t : Textarea) (start stop : Nat) : Textarea :=
  { t with selectionStart := start, selectionEnd := stop }

/-- Modelled from the spec: the call `textarea.range(text)` of the jQuery caret plugin, which is
not among the sources; it is the range replacement of the TextBufferAdapter: the selected
text is replaced by `text`. The specification does not say where the selection is afterwards;
here the new text stays selected when the selection was not empty, and the caret stands
behind it otherwise. -/
def Textarea.range_replace (t : Textarea) (text : JSString) : Textarea :=
  { value := slice_to t.value t.selectionStart ++ text ++ slice_from t.value t.selectionEnd,
    selectionStart :=
      if t.selectionEnd - t.selectionStart = 0 then t.selectionStart + text.length
      else t.selectionStart,
    selectionEnd := t.selectionStart + text.length }

/-- The function `wrap_text_with_markdown`; `prefix_text` is its parameter `prefix`. The text
area is the focused element, the one `insertText` acts on. -/
def wrap_text_with_markdown (st : State) (prefix_text suffix : JSString) : State :=
  let range := st.textarea.range
  if st.insertText_supported then
    { st with textarea := st.textarea.insertText (prefix_text ++ range.text ++ suffix) }
  else
    let selected := st.textarea.set_range range.start range.stop
    { st with textarea := selected.range_replace (prefix_text ++ range.text ++ suffix) }

/-! ## Vocabulary of the specification -/

/-- The specification's `is_space(c)`: `c` is a space, a tab or a newline. -/
def IsSpaceChar (c : Char) : Prop := c = ' ' ∨ c = '\t' ∨ c = '\n'

/-- The string has a first character and it is a space, a tab or a newline. -/
def StartsWithSpace (s : JSString) : Prop := ∃ c, s.head? = some c ∧ IsSpaceChar c

/-- The string has a last character and it is a space, a tab or a newline. -/
def EndsWithSpace (s : JSString) : Prop := ∃ c, s.getLast? = some c ∧ IsSpaceChar c

instance (c : Char) : Decidable (IsSpaceChar c) := by
  unfold IsSpaceChar; infer_instance

instance (s : JSString) : Decidable (StartsWithSpace s) :=
  decidable_of_iff (∃ c ∈ s.head?, IsSpaceChar c) (by simp [StartsWithSpace])

instance (s : JSString) : Decidable (EndsWithSpace s) :=
  decidable_of_iff (∃ c ∈ s.getLast?, IsSpaceChar c) (by simp [EndsWithSpace])

/-- A state to run examples from: normal size, `insertText` supported, no call made yet. -/
def State.initial (t : Textarea) : State :=
  { full_size_status := false, textarea := t, insertText_supported := true, calls := [] }

/-! ## Lemmas on the JavaScript primitives -/

theorem is_space_string_iff (s : JSString) :
    is_space (JSValue.string s) = true ↔ ∃ c, s = [c] ∧ IsSpaceChar c := by
  simp only [is_space, IsSpaceChar, Bool.or_eq_true, decide_eq_true_eq, JSValue.string.injEq]
  constructor
  · rintro ((h | h) | h) <;> subst h <;> simp
  · rintro ⟨c, rfl, h | h | h⟩ <;> subst h <;> simp

theorem is_space_undefined : is_space JSValue.undefined = false := by
  simp [is_space]

theorem is_space_index_zero (s : JSString) :
    is_space (index s 0) = true ↔ StartsWithSpace s := by
  cases s with
  | nil => simp [index, is_space_undefined, StartsWithSpace]
  | cons a l =>
    have : index (a :: l) 0 = JSValue.string [a] := by simp [index]
    rw [this, is_space_string_iff]
    simp [StartsWithSpace]

theorem slice_last_eq (s : JSString) :
    slice_last s = match s.getLast? with
      | some c => [c]
      | none => [] := by
  rcases List.eq_nil_or_concat s with rfl | ⟨l, a, rfl⟩
  · simp [slice_last]
  · simp [slice_last]

theorem is_space_slice_last (s : JSString) :
    is_space (JSValue.string (slice_last s)) = true ↔ EndsWithSpace s := by
  rw [is_space_string_iff, slice_last_eq]
  cases h : s.getLast? with
  | none => simp [EndsWithSpace, h]
  | some a => simp [EndsWithSpace, h]

theorem endsWithSpace_append_of_ne_nil (p s : JSString) (h : s ≠ []) :
    EndsWithSpace (p ++ s) ↔ EndsWithSpace s := by
  simp [EndsWithSpace, List.getLast?_append_of_ne_nil p h]

theorem startsWithSpace_append_of_ne_nil (s q : JSString) (h : s ≠ []) :
    StartsWithSpace (s ++ q) ↔ StartsWithSpace s := by
  cases s with
  | nil => exact absurd rfl h
  | cons a l => simp [StartsWithSpace]

/-! ## Lemmas on smart_insert -/

theorem leading_padded_eq (pos : Nat) (before_str syn : JSString) :
    leading_padded pos before_str syn =
      if 0 < pos ∧ ¬ EndsWithSpace before_str ∧ ¬ StartsWithSpace syn then [' '] ++ syn
      else syn := by
  unfold leading_padded
  by_cases h1 : 0 < pos <;> by_cases h2 : EndsWithSpace before_str <;>
    by_cases h3 : StartsWithSpace syn <;>
    simp [h1, h2, h3, (is_space_slice_last before_str).mpr, (is_space_index_zero syn).mpr,
      Bool.eq_false_iff.mpr (mt (is_space_slice_last before_str).mp _),
      Bool.eq_false_iff.mpr (mt (is_space_index_zero syn).mp _)]

theorem trailing_padded_eq (after_str syn : JSString) :
    trailing_padded after_str syn =
      if StartsWithSpace after_str ∨ EndsWithSpace syn then syn else syn ++ [' '] := by
  unfold trailing_padded
  have ha : (decide (after_str.length > 0) && is_space (index after_str 0)) = true
      ↔ StartsWithSpace after_str := by
    rw [Bool.and_eq_true, is_space_index_zero]
    constructor
    · exact fun h => h.2
    · intro h
      refine ⟨?_, h⟩
      obtain ⟨c, hc, _⟩ := h
      cases after_str <;> simp at hc ⊢
  have hs : (decide (syn.length > 0) && is_space (JSValue.string (slice_last syn))) = true
      ↔ EndsWithSpace syn := by
    rw [Bool.and_eq_true, is_space_slice_last]
    constructor
    · exact fun h => h.2
    · intro h
      refine ⟨?_, h⟩
      obtain ⟨c, hc, _⟩ := h
      cases syn <;> simp at hc ⊢
  by_cases h1 : StartsWithSpace after_str <;> by_cases h2 : EndsWithSpace syn <;>
    simp [h1, h2, ha.mpr, hs.mpr, Bool.eq_false_iff.mpr (mt ha.mp _),
      Bool.eq_false_iff.mpr (mt hs.mp _)]

/-- Both insertion paths give the same text area when the selection is a caret: the padded
syntax goes in at the caret and the caret ends up behind it. -/
theorem smart_insert_textarea (st : State) (text syn : JSString) (caret : Nat) :
    (smart_insert { st with textarea := Textarea.at_caret text caret } syn).textarea =
      Textarea.at_caret
        (text.take caret
          ++ trailing_padded (text.drop caret) (leading_padded caret (text.take caret) syn)
          ++ text.drop caret)
        (caret
          + (trailing_padded (text.drop caret) (leading_padded caret (text.take caret) syn)).length)
      := by
  cases hs : st.insertText_supported <;> cases hf : st.full_size_status <;>
    simp [smart_insert, autosize_textarea, is_full_size, State.call, Textarea.at_caret,
      Textarea.insertText, Textarea.caret_insert, Textarea.caret, Textarea.val, slice_to,
      slice_from, hs, hf]

/-- The inserted text of `smart_insert` in the specification's vocabulary: a leading space,
the syntax and a trailing space, each space present exactly when its rule asks for it. -/
theorem smart_insert_decomposition (st : State) (text syn : JSString) (caret : Nat) :
    ∃ lead trail : JSString,
      (lead = [' '] ↔ 0 < caret ∧ ¬ EndsWithSpace (text.take caret) ∧ ¬ StartsWithSpace syn) ∧
      (lead = [] ∨ lead = [' ']) ∧
      (trail = [' '] ↔ ¬ (StartsWithSpace (text.drop caret) ∨ EndsWithSpace (lead ++ syn))) ∧
      (trail = [] ∨ trail = [' ']) ∧
      (smart_insert { st with textarea := Textarea.at_caret text caret } syn).textarea =
        Textarea.at_caret (text.take caret ++ (lead ++ syn ++ trail) ++ text.drop caret)
          (caret + (lead ++ syn ++ trail).length) := by
  rw [smart_insert_textarea, leading_padded_eq, trailing_padded_eq]
  by_cases h1 : 0 < caret ∧ ¬ EndsWithSpace (text.take caret) ∧ ¬ StartsWithSpace syn
  · by_cases h2 : StartsWithSpace (text.drop caret) ∨ EndsWithSpace (' ' :: syn)
    · exact ⟨[' '], [], by simp [h1], by simp, by simp [h2], by simp, by simp [h1, h2]⟩
    · exact ⟨[' '], [' '], by simp [h1], by simp, by simp [h2], by simp, by simp [h1, h2]⟩
  · by_cases h2 : StartsWithSpace (text.drop caret) ∨ EndsWithSpace syn
    · exact ⟨[], [], by simp [h1], by simp, by simp [h2], by simp, by simp [h1, h2]⟩
    · exact ⟨[], [' '], by simp [h1], by simp, by simp [h2], by simp, by simp [h1, h2]⟩

/-! ## Lemmas on replace -/

/-- What `indexOf` returns: `none` when the pattern does not occur, and otherwise the length
of the shortest prefix of the text behind which the pattern stands. -/
theorem indexOf_spec (pat : JSString) (text : JSString) :
    match indexOf pat text with
    | none => ¬ pat <:+: text
    | some k => ∃ p s, text = p ++ pat ++ s ∧ p.length = k ∧
        ∀ p' s', text = p' ++ pat ++ s' → k ≤ p'.length := by
  induction text with
  | nil =>
    unfold indexOf
    by_cases h : pat.isPrefixOf [] = true
    · rw [if_pos h]
      have hp : pat = [] := by simpa using List.isPrefixOf_iff_prefix.mp h
      exact ⟨[], [], by simp [hp], rfl, fun _ _ _ => Nat.zero_le _⟩
    · rw [if_neg h]
      intro hin
      apply h
      have hp : pat = [] := by simpa using hin
      simp [hp]
  | cons c t ih =>
    unfold indexOf
    by_cases h : pat.isPrefixOf (c :: t) = true
    · rw [if_pos h]
      obtain ⟨s, hs⟩ := List.isPrefixOf_iff_prefix.mp h
      exact ⟨[], s, by simp [hs], rfl, fun _ _ _ => Nat.zero_le _⟩
    · rw [if_neg h]
      have hnp : ¬ pat <+: c :: t := fun hp => h (List.isPrefixOf_iff_prefix.mpr hp)
      cases hi : indexOf pat t with
      | none =>
        rw [hi] at ih
        simp only [Option.map_none']
        intro hin
        rcases List.infix_cons_iff.mp hin with h1 | h1
        · exact hnp h1
        · exact ih h1
      | some k =>
        rw [hi] at ih
        simp only [Option.map_some']
        obtain ⟨p, s, hps, hlen, hmin⟩ := ih
        refine ⟨c :: p, s, by simp [hps], by simp [hlen], ?_⟩
        intro p' s' heq
        cases p' with
        | nil => exact absurd ⟨s', by simpa using heq.symm⟩ hnp
        | cons a p'' =>
          simp only [List.cons_append, List.cons.injEq] at heq
          have := hmin p'' s' (by simpa using heq.2)
          simpa using this

theorem indexOf_eq_none_iff (pat text : JSString) :
    indexOf pat text = none ↔ ¬ pat <:+: text := by
  have h := indexOf_spec pat text
  cases hi : indexOf pat text with
  | none => rw [hi] at h; simpa using h
  | some k =>
    rw [hi] at h
    obtain ⟨p, s, hps, -, -⟩ := h
    simp only [reduceCtorEq, false_iff, not_not]
    exact ⟨p, s, hps.symm⟩

theorem exec_eq_none_of_length_lt (re : RegExp) (hwf : re.WellFormed) (text : JSString)
    (lastIndex : Nat) (h : text.length < lastIndex) : re.exec text lastIndex = none := by
  cases he : re.exec text lastIndex with
  | none => rfl
  | some m =>
    obtain ⟨i, len⟩ := m
    have := hwf text lastIndex i len he
    omega

theorem drop_eq_gap_match_rest (text : JSString) (next i len : Nat) (h1 : next ≤ i)
    (h2 : i + len ≤ text.length) :
    text.drop next = (text.take i).drop next ++ ((text.drop i).take len ++ text.drop (i + len)) := by
  have hi : i ≤ text.length := by omega
  have e1 : (text.drop i).take len ++ text.drop (i + len) = text.drop i := by
    rw [← List.drop_drop]
    exact List.take_append_drop len (text.drop i)
  rw [e1]
  have e2 : text.drop next = (text.take i ++ text.drop i).drop next := by
    rw [List.take_append_drop]
  rw [e2, List.drop_append_of_le_length]
  rw [List.length_take_of_le hi]
  exact h1

/-- The matches collected for a global, well-formed pattern are those of a complete scan, and
splicing them replaces each matched text and copies the rest. -/
theorem splice_results (re : RegExp) (hg : re.global = true) (hwf : re.WellFormed)
    (text : JSString) (f : JSString → JSString) :
    ∀ fuel lastIndex next, next ≤ lastIndex → text.length + 2 ≤ fuel + lastIndex →
      ∃ segs tail, Scanned re text lastIndex next segs tail ∧
        text.drop next = assemble (fun m => m) segs tail ∧
        splice text f (RegExp.results re text fuel lastIndex) next = assemble f segs tail := by
  intro fuel
  induction fuel with
  | zero =>
    intro lastIndex next _ hfuel
    have he := exec_eq_none_of_length_lt re hwf text lastIndex (by omega)
    exact ⟨[], text.drop next, Scanned.done lastIndex next he, by simp [assemble],
      by simp [RegExp.results, splice, assemble]⟩
  | succ fuel ih =>
    intro lastIndex next hnext hfuel
    cases he : re.exec text lastIndex with
    | none =>
      exact ⟨[], text.drop next, Scanned.done lastIndex next he, by simp [assemble],
        by simp [RegExp.results, he, splice, assemble]⟩
    | some m =>
      obtain ⟨i, len⟩ := m
      obtain ⟨hle, hin⟩ := hwf text lastIndex i len he
      have hadv : lastIndex + 1 ≤ (if len = 0 then i + len + 1 else i + len) := by
        split <;> omega
      have hnext' : i + len ≤ (if len = 0 then i + len + 1 else i + len) := by
        split <;> omega
      obtain ⟨segs, tail, hscan, htext, hsplice⟩ :=
        ih (if len = 0 then i + len + 1 else i + len) (i + len) hnext' (by omega)
      refine ⟨((text.take i).drop next, (text.drop i).take len) :: segs, tail,
        Scanned.step lastIndex next i len segs tail he hscan, ?_, ?_⟩
      · rw [drop_eq_gap_match_rest text next i len (by omega) hin, htext]
        simp [assemble]
      · have hmin : min i text.length = i := by omega
        have hlen : ((text.drop i).take len).length = len := by
          rw [List.length_take, List.length_drop]; omega
        have hpos : next ≤ i := by omega
        simp only [RegExp.results, he, hg, if_true, splice, hmin, hlen, ge_iff_le, hpos]
        rw [hsplice]
        simp [assemble]

theorem literal_exec_some (w : JSString) (g : Bool) (text : JSString) (lastIndex i len : Nat)
    (h : (RegExp.literal w g).exec text lastIndex = some (i, len)) :
    lastIndex ≤ text.length ∧ len = w.length ∧
      ∃ p s, text.drop lastIndex = p ++ w ++ s ∧ i = lastIndex + p.length ∧
        (w ≠ [] → ¬ w <:+: p ++ w.dropLast) := by
  simp only [RegExp.literal] at h
  by_cases hlt : lastIndex > text.length
  · simp [hlt] at h
  · rw [if_neg hlt] at h
    have hspec := indexOf_spec w (text.drop lastIndex)
    cases hi : indexOf w (text.drop lastIndex) with
    | none => simp [hi] at h
    | some k =>
      rw [hi] at hspec
      simp only [hi, Option.map_some', Option.some.injEq, Prod.mk.injEq] at h
      obtain ⟨p, s, hps, hlen, hmin⟩ := hspec
      refine ⟨by omega, h.2.symm, p, s, hps, by omega, ?_⟩
      intro hw hin
      obtain ⟨a, b, hab⟩ := hin
      have hwl : w = w.dropLast ++ [w.getLast hw] := (List.dropLast_append_getLast hw).symm
      have h1 : text.drop lastIndex = a ++ w ++ (b ++ [w.getLast hw] ++ s) := by
        rw [hps]
        nth_rewrite 1 [hwl]
        rw [← List.append_assoc p, ← hab]
        simp
      have h2 := hmin a _ h1
      have h3 := congrArg List.length hab
      have hpos : 0 < w.length := List.length_pos.mpr hw
      simp only [List.length_append, List.length_dropLast] at h3
      omega

theorem literal_exec_none (w : JSString) (g : Bool) (text : JSString) (lastIndex : Nat)
    (hle : lastIndex ≤ text.length)
    (h : (RegExp.literal w g).exec text lastIndex = none) :
    ¬ w <:+: text.drop lastIndex := by
  simp only [RegExp.literal] at h
  rw [if_neg (by omega)] at h
  rw [← indexOf_eq_none_iff]
  simpa using h

theorem literal_wellFormed (w : JSString) (g : Bool) : (RegExp.literal w g).WellFormed := by
  intro text lastIndex i len h
  obtain ⟨hle, hlen, p, s, hps, hi, -⟩ := literal_exec_some w g text lastIndex i len h
  have h3 := congrArg List.length hps
  simp only [List.length_append, List.length_drop] at h3
  omega

theorem join_append_singleton (sep : JSString) (gaps : List JSString) (g : JSString)
    (tail : JSString) :
    join sep (g :: (gaps ++ [tail])) = g ++ sep ++ join sep (gaps ++ [tail]) := by
  cases gaps <;> simp [join]

/-- The pairs of a scan for a non-empty literal, read as the list of the texts between the
occurrences: each such text is followed by the leftmost occurrence behind the previous one,
and no occurrence is left in the tail. -/
theorem scanned_literal (w : JSString) (hw : w ≠ []) (text : JSString)
    (lastIndex next : Nat) (segs : List (JSString × JSString)) (tail : JSString)
    (h : Scanned (RegExp.literal w true) text lastIndex next segs tail) :
    next = lastIndex → lastIndex ≤ text.length →
      (∀ f : JSString → JSString,
        assemble f segs tail = join (f w) (segs.map Prod.fst ++ [tail])) ∧
      (∀ g ∈ segs.map Prod.fst, ¬ w <:+: g ++ w.dropLast) ∧ ¬ w <:+: tail := by
  induction h with
  | done lastIndex next he =>
    intro hn hle
    subst hn
    exact ⟨fun f => by simp [assemble, join], by simp, literal_exec_none w true text next hle he⟩
  | step lastIndex next i len segs tail he _ ih =>
    intro hn hle
    subst hn
    obtain ⟨-, hlen, p, s, hps, hi, hmin⟩ := literal_exec_some w true text next i len he
    have hpos : 0 < w.length := List.length_pos.mpr hw
    have hlen0 : len ≠ 0 := by omega
    have hbound : i + len ≤ text.length :=
      (literal_wellFormed w true text next i len he).2
    rw [if_neg hlen0] at ih
    obtain ⟨ih1, ih2, ih3⟩ := ih rfl hbound
    have hgap : (text.take i).drop next = p := by
      rw [List.drop_take, hps, hi]
      simp
    have hmatch : (text.drop i).take len = w := by
      rw [hi, ← List.drop_drop, hps, hlen]
      simp
    rw [hgap, hmatch]
    refine ⟨fun f => ?_, ?_, ih3⟩
    · have := ih1 f
      simp only [assemble] at this ⊢
      simp only [List.map_cons, List.flatten_cons, List.cons_append]
      rw [join_append_singleton, ← this]
      simp
    · intro g hg
      simp only [List.map_cons, List.mem_cons] at hg
      rcases hg with rfl | hg
      · exact hmin hw
      · exact ih2 g hg

/-! ## Lemmas on compute_placeholder_text -/

theorem split_ne_nil (sep : Char) (s : JSString) : split sep s ≠ [] := by
  cases s with
  | nil => simp [split]
  | cons c t =>
    unfold split
    split
    · simp
    · split <;> simp

theorem split_of_not_mem (sep : Char) (s : JSString) (h : sep ∉ s) : split sep s = [s] := by
  induction s with
  | nil => simp [split]
  | cons c t ih =>
    simp only [List.mem_cons, not_or] at h
    unfold split
    rw [if_neg (fun hc => h.1 hc.symm), ih h.2]

theorem split_append_sep (sep : Char) (s rest : JSString) (h : sep ∉ s) :
    split sep (s ++ sep :: rest) = s :: split sep rest := by
  induction s with
  | nil => simp [split]
  | cons c t ih =>
    simp only [List.mem_cons, not_or] at h
    simp only [List.cons_append]
    rw [split, if_neg (fun hc => h.1 hc.symm), ih h.2]

/-- Splitting at commas undoes joining with commas, for strings that hold no comma. -/
theorem split_join (sep : Char) (rs : List JSString) (hne : rs ≠ [])
    (h : ∀ r ∈ rs, sep ∉ r) : split sep (join [sep] rs) = rs := by
  induction rs with
  | nil => exact absurd rfl hne
  | cons r rest ih =>
    cases rest with
    | nil => simpa [join] using split_of_not_mem sep r (h r (by simp))
    | cons r' rest' =>
      simp only [join, List.append_assoc, List.singleton_append]
      rw [split_append_sep sep r _ (h r (by simp)),
        ih (by simp) (fun x hx => h x (List.mem_cons_of_mem _ hx))]

theorem join_ne_nil_of_two_le (sep : JSString) (hsep : sep ≠ []) (rs : List JSString)
    (h : 2 ≤ rs.length) : join sep rs ≠ [] := by
  match rs, h with
  | a :: b :: rest, _ => simp [join, hsep]

/-- Resolving every recipient of a list that resolves gives the full names in order. -/
theorem mapM_full_name (dir : Directory) (rs : List JSString) (users : List Person)
    (h : rs.map dir.get_by_email = users.map some) :
    rs.mapM (fun recipient => do
      let user ← get_user dir recipient
      pure user.full_name) = Except.ok (users.map (fun u => u.full_name)) := by
  induction rs generalizing users with
  | nil =>
    cases users with
    | nil => rfl
    | cons u us => simp at h
  | cons r rest ih =>
    cases users with
    | nil => simp at h
    | cons u us =>
      simp only [List.map_cons, List.cons.injEq] at h
      rw [List.mapM_cons, ih us h.2]
      simp only [get_user, h.1]
      rfl

theorem not_stream_rule (dir : Directory) (opts : Opts)
    (h : opts.message_type ≠ JSValue.string "stream".toList ∨
      (truthy opts.topic = false ∧ truthy opts.stream = false)) :
    compute_placeholder_text dir opts = private_placeholder_text dir opts := by
  unfold compute_placeholder_text
  rcases h with h | ⟨h1, h2⟩
  · rw [if_neg h]
  · simp [h1, h2]

/-- Resolving the recipients of a list fails as soon as one of them does not resolve,
wherever it stands in the list. -/
theorem mapM_full_name_error (dir : Directory) (rs : List JSString) (r : JSString)
    (hr : r ∈ rs) (hnone : dir.get_by_email r = none) :
    rs.mapM (fun recipient => do
      let user ← get_user dir recipient
      pure user.full_name) = Except.error Error.type_error := by
  induction rs with
  | nil => simp at hr
  | cons a rest ih =>
    rw [List.mapM_cons]
    cases ha : dir.get_by_email a with
    | none =>
      simp only [get_user, ha]
      rfl
    | some user =>
      have hrest : r ∈ rest := by
        rcases List.mem_cons.mp hr with h | h
        · rw [h, ha] at hnone
          cases hnone
        · exact h
      rw [ih hrest]
      simp only [get_user, ha]
      rfl

/-- With no recipient set, the part behind the stream block gives the default text. -/
theorem private_placeholder_text_default (dir : Directory) (opts : Opts)
    (h : truthy opts.private_message_recipient = false) :
    private_placeholder_text dir opts = Except.ok "Compose your message here".toList := by
  simp [private_placeholder_text, h, t, format, pure, Except.pure, bind, Except.bind]

/-! ## The claims on smart_insert -/

/-- C1 (leading pad). Where the caret is at an offset `0 < caret ≤ length text`, the character
before it is not a space, tab or newline, and the syntax is non-empty and does not start with
one, the new text is `before ++ " " ++ syntax ++ pad ++ after`: exactly one space separates
`before` from the syntax. `pad` is the empty string when the text after the caret starts or
the syntax ends with whitespace and a single space otherwise, and the new caret is
`length before + 1 + length syntax + length pad`. -/
theorem smart_insert_leading_pad (st : State) (text syn : JSString) (caret : Nat)
    (hpos : 0 < caret) (hle : caret ≤ text.length)
    (hbefore : ¬ EndsWithSpace (text.take caret))
    (hne : syn ≠ []) (hsyn : ¬ StartsWithSpace syn) :
    ∃ pad : JSString,
      ((StartsWithSpace (text.drop caret) ∨ EndsWithSpace syn) ∧ pad = [] ∨
        ¬ (StartsWithSpace (text.drop caret) ∨ EndsWithSpace syn) ∧ pad = [' ']) ∧
      (smart_insert { st with textarea := Textarea.at_caret text caret } syn).textarea.val =
        text.take caret ++ [' '] ++ syn ++ pad ++ text.drop caret ∧
      (smart_insert { st with textarea := Textarea.at_caret text caret } syn).textarea.caret =
        (text.take caret).length + 1 + syn.length + pad.length := by
  obtain ⟨lead, trail, hlead, -, htrail, htrail2, heq⟩ :=
    smart_insert_decomposition st text syn caret
  have hl : lead = [' '] := hlead.mpr ⟨hpos, hbefore, hsyn⟩
  subst hl
  rw [endsWithSpace_append_of_ne_nil _ _ hne] at htrail
  have hlen : (text.take caret).length = caret := List.length_take_of_le hle
  refine ⟨trail, ?_, ?_, ?_⟩
  · rcases htrail2 with h | h
    · left
      refine ⟨?_, h⟩
      by_contra hc
      have := htrail.mpr hc
      simp [h] at this
    · right
      exact ⟨htrail.mp h, h⟩
  · rw [heq]; simp [Textarea.at_caret, Textarea.val]
  · rw [heq, hlen]; simp [Textarea.at_caret, Textarea.caret]; omega

/-- C1, at the text `ab` with the caret between the letters and the syntax `x`. -/
theorem smart_insert_leading_pad_witness :
    ∃ pad : JSString,
      ((StartsWithSpace ("ab".toList.drop 1) ∨ EndsWithSpace "x".toList) ∧ pad = [] ∨
        ¬ (StartsWithSpace ("ab".toList.drop 1) ∨ EndsWithSpace "x".toList) ∧ pad = [' ']) ∧
      (smart_insert { State.initial (Textarea.at_caret [] 0) with
          textarea := Textarea.at_caret "ab".toList 1 } "x".toList).textarea.val =
        "ab".toList.take 1 ++ [' '] ++ "x".toList ++ pad ++ "ab".toList.drop 1 ∧
      (smart_insert { State.initial (Textarea.at_caret [] 0) with
          textarea := Textarea.at_caret "ab".toList 1 } "x".toList).textarea.caret =
        ("ab".toList.take 1).length + 1 + "x".toList.length + pad.length :=
  smart_insert_leading_pad (State.initial (Textarea.at_caret [] 0)) "ab".toList "x".toList 1
    (by decide) (by decide) (by decide) (by decide) (by decide)

/-- C2 (trailing pad). The inserted text is the syntax as it stands after the leading-pad step
(`lead ++ syntax`, `lead` being the space that step put in front, or nothing) followed by
`trail`, and `trail` is a single space if and only if neither the text after the caret starts
with a space, tab or newline nor that syntax ends with one; otherwise nothing is appended.
For a non-empty syntax its last character is the last character of the syntax the caller
passed. When the text after the caret is empty, a space is appended unless the syntax
already ends in whitespace. -/
theorem smart_insert_trailing_pad (st : State) (text syn : JSString) (caret : Nat) :
    ∃ lead trail : JSString,
      (lead = [' '] ↔ 0 < caret ∧ ¬ EndsWithSpace (text.take caret) ∧ ¬ StartsWithSpace syn) ∧
      (lead = [] ∨ lead = [' ']) ∧
      (smart_insert { st with textarea := Textarea.at_caret text caret } syn).textarea.val =
        text.take caret ++ (lead ++ syn) ++ trail ++ text.drop caret ∧
      (trail = [' '] ↔ ¬ (StartsWithSpace (text.drop caret) ∨ EndsWithSpace (lead ++ syn))) ∧
      (trail = [] ↔ (StartsWithSpace (text.drop caret) ∨ EndsWithSpace (lead ++ syn))) ∧
      (syn = [] ∨ (EndsWithSpace (lead ++ syn) ↔ EndsWithSpace syn)) ∧
      (text.drop caret ≠ [] ∨ (trail = [' '] ↔ ¬ EndsWithSpace (lead ++ syn))) := by
  obtain ⟨lead, trail, hlead, hlead2, htrail, htrail2, heq⟩ :=
    smart_insert_decomposition st text syn caret
  refine ⟨lead, trail, hlead, hlead2, ?_, htrail, ?_, ?_, ?_⟩
  · rw [heq]; simp [Textarea.at_caret, Textarea.val]
  · rcases htrail2 with h | h
    · subst h
      refine ⟨fun _ => ?_, fun _ => rfl⟩
      by_contra hc
      have := htrail.mpr hc
      simp at this
    · subst h
      refine ⟨fun h => ?_, fun h => absurd h (htrail.mp rfl)⟩
      simp at h
  · by_cases hs : syn = []
    · exact Or.inl hs
    · exact Or.inr (endsWithSpace_append_of_ne_nil _ _ hs)
  · by_cases ha : text.drop caret = []
    · right
      rw [htrail, ha]
      simp [StartsWithSpace]
    · exact Or.inl ha

/-- C2, at the text `a` with the caret at its end and the empty syntax: the leading space is
all that goes in, since the syntax then ends with it, and the text becomes `a` and one
space; at the text `ab` with the caret between the letters and the syntax `x`, a space is
appended and the text becomes `a x b`. -/
theorem smart_insert_trailing_pad_witness :
    (∃ lead trail : JSString,
      (lead = [' '] ↔ 0 < 1 ∧ ¬ EndsWithSpace ("a".toList.take 1) ∧ ¬ StartsWithSpace []) ∧
      (lead = [] ∨ lead = [' ']) ∧
      (smart_insert { State.initial (Textarea.at_caret [] 0) with
          textarea := Textarea.at_caret "a".toList 1 } []).textarea.val =
        "a".toList.take 1 ++ (lead ++ []) ++ trail ++ "a".toList.drop 1 ∧
      (trail = [' '] ↔ ¬ (StartsWithSpace ("a".toList.drop 1) ∨ EndsWithSpace (lead ++ []))) ∧
      (trail = [] ↔ (StartsWithSpace ("a".toList.drop 1) ∨ EndsWithSpace (lead ++ []))) ∧
      (([] : JSString) = [] ∨ (EndsWithSpace (lead ++ []) ↔ EndsWithSpace [])) ∧
      ("a".toList.drop 1 ≠ [] ∨ (trail = [' '] ↔ ¬ EndsWithSpace (lead ++ [])))) ∧
    (smart_insert { State.initial (Textarea.at_caret [] 0) with
        textarea := Textarea.at_caret "a".toList 1 } []).textarea.val = "a ".toList ∧
    (smart_insert { State.initial (Textarea.at_caret [] 0) with
        textarea := Textarea.at_caret "ab".toList 1 } "x".toList).textarea.val = "a x b".toList :=
  ⟨smart_insert_trailing_pad (State.initial (Textarea.at_caret [] 0)) "a".toList [] 1,
    by decide, by decide⟩

/-- C3 (caret invariant). For a caret with `caret ≤ length text`, the text inserted is the
padded syntax `lead ++ syntax ++ trail` (each pad a single space or nothing); the new caret is
the old caret plus its length, the slice of the new text from the old caret to the new caret
is exactly the padded syntax, the new caret is a valid offset of the new text, and the
selection is again a caret. -/
theorem smart_insert_caret_invariant (st : State) (text syn : JSString) (caret : Nat)
    (hle : caret ≤ text.length) :
    ∃ padded lead trail : JSString,
      (lead = [] ∨ lead = [' ']) ∧ (trail = [] ∨ trail = [' ']) ∧
      padded = lead ++ syn ++ trail ∧
      (smart_insert { st with textarea := Textarea.at_caret text caret } syn).textarea.val =
        text.take caret ++ padded ++ text.drop caret ∧
      (smart_insert { st with textarea := Textarea.at_caret text caret } syn).textarea.caret =
        caret + padded.length ∧
      (((smart_insert { st with textarea := Textarea.at_caret text caret } syn).textarea.val).take
        (smart_insert { st with textarea := Textarea.at_caret text caret } syn).textarea.caret).drop
          caret = padded ∧
      (smart_insert { st with textarea := Textarea.at_caret text caret } syn).textarea.caret ≤
        ((smart_insert { st with textarea := Textarea.at_caret text caret } syn).textarea.val).length ∧
      (smart_insert { st with textarea := Textarea.at_caret text caret } syn).textarea.selectionEnd =
        (smart_insert { st with textarea := Textarea.at_caret text caret } syn).textarea.selectionStart
      := by
  obtain ⟨lead, trail, -, hlead2, -, htrail2, heq⟩ :=
    smart_insert_decomposition st text syn caret
  have hlen : (text.take caret).length = caret := List.length_take_of_le hle
  refine ⟨lead ++ syn ++ trail, lead, trail, hlead2, htrail2, rfl, ?_, ?_, ?_, ?_, ?_⟩
  · rw [heq]; simp [Textarea.at_caret, Textarea.val]
  · rw [heq]; simp [Textarea.at_caret, Textarea.caret]
  · rw [heq]
    simp only [Textarea.at_caret, Textarea.val, Textarea.caret]
    have h2 : caret + (lead ++ syn ++ trail).length =
        (text.take caret ++ (lead ++ syn ++ trail)).length := by
      simp [hlen]
    rw [h2, List.take_left']
    · nth_rewrite 1 [← hlen]
      exact List.drop_left' rfl
    · rfl
  · rw [heq]
    simp only [Textarea.at_caret, Textarea.val, Textarea.caret, List.length_append, hlen]
    omega
  · rw [heq]; simp [Textarea.at_caret]

/-- C3, at the text `ab` with the caret between the letters and the syntax `x`: the padded
syntax is inserted at offset 1 and the caret ends up behind it. -/
theorem smart_insert_caret_invariant_witness :
    ∃ padded lead trail : JSString,
      (lead = [] ∨ lead = [' ']) ∧ (trail = [] ∨ trail = [' ']) ∧
      padded = lead ++ "x".toList ++ trail ∧
      (smart_insert { State.initial (Textarea.at_caret [] 0) with
          textarea := Textarea.at_caret "ab".toList 1 } "x".toList).textarea.val =
        "ab".toList.take 1 ++ padded ++ "ab".toList.drop 1 ∧
      (smart_insert { State.initial (Textarea.at_caret [] 0) with
          textarea := Textarea.at_caret "ab".toList 1 } "x".toList).textarea.caret =
        1 + padded.length ∧
      (((smart_insert { State.initial (Textarea.at_caret [] 0) with
          textarea := Textarea.at_caret "ab".toList 1 } "x".toList).textarea.val).take
        (smart_insert { State.initial (Textarea.at_caret [] 0) with
          textarea := Textarea.at_caret "ab".toList 1 } "x".toList).textarea.caret).drop
          1 = padded ∧
      (smart_insert { State.initial (Textarea.at_caret [] 0) with
          textarea := Textarea.at_caret "ab".toList 1 } "x".toList).textarea.caret ≤
        ((smart_insert { State.initial (Textarea.at_caret [] 0) with
          textarea := Textarea.at_caret "ab".toList 1 } "x".toList).textarea.val).length ∧
      (smart_insert { State.initial (Textarea.at_caret [] 0) with
          textarea := Textarea.at_caret "ab".toList 1 } "x".toList).textarea.selectionEnd =
        (smart_insert { State.initial (Textarea.at_caret [] 0) with
          textarea := Textarea.at_caret "ab".toList 1 } "x".toList).textarea.selectionStart :=
  smart_insert_caret_invariant (State.initial (Textarea.at_caret [] 0)) "ab".toList "x".toList 1
    (by decide)

/-- C4 (caret at offset 0). With the caret at 0 nothing is put in front of the syntax: the new
text is the syntax, the trailing pad (a single space or nothing) and the old text. On the
empty buffer, a syntax that does not end in a space, tab or newline gives exactly
`syntax ++ " "` with the caret at `length syntax + 1`. -/
theorem smart_insert_at_caret_zero (st : State) (syn : JSString) :
    (∀ text : JSString, ∃ trail : JSString, (trail = [] ∨ trail = [' ']) ∧
      (smart_insert { st with textarea := Textarea.at_caret text 0 } syn).textarea.val =
        syn ++ trail ++ text) ∧
    (¬ EndsWithSpace syn →
      (smart_insert { st with textarea := Textarea.at_caret [] 0 } syn).textarea =
        Textarea.at_caret (syn ++ [' ']) (syn.length + 1)) := by
  constructor
  · intro text
    obtain ⟨lead, trail, hlead, hlead2, -, htrail2, heq⟩ :=
      smart_insert_decomposition st text syn 0
    have hl : lead = [] := by
      rcases hlead2 with h | h
      · exact h
      · exact absurd (hlead.mp h).1 (lt_irrefl 0)
    subst hl
    exact ⟨trail, htrail2, by rw [heq]; simp [Textarea.at_caret, Textarea.val]⟩
  · intro hs
    obtain ⟨lead, trail, hlead, hlead2, htrail, -, heq⟩ :=
      smart_insert_decomposition st [] syn 0
    have hl : lead = [] := by
      rcases hlead2 with h | h
      · exact h
      · exact absurd (hlead.mp h).1 (lt_irrefl 0)
    subst hl
    have ht : trail = [' '] := htrail.mpr (by simpa [StartsWithSpace] using hs)
    subst ht
    rw [heq]
    simp

/-- C4, on the empty buffer with the syntax `**bold**`: the text becomes `**bold** ` and the
caret 9. -/
theorem smart_insert_at_caret_zero_witness :
    (smart_insert { State.initial (Textarea.at_caret [] 0) with
        textarea := Textarea.at_caret [] 0 } "**bold**".toList).textarea =
      Textarea.at_caret "**bold** ".toList 9 :=
  (smart_insert_at_caret_zero (State.initial (Textarea.at_caret [] 0)) "**bold**".toList).2
    (by decide)

/-- C5 (no merging with adjacent tokens). For a non-empty syntax the new text is
`pre ++ syntax ++ post`, where `pre` is the text before the caret with the leading pad and
`post` the trailing pad with the text after the caret, and (i) `pre` is empty (the syntax
starts at offset 0), or the syntax starts with a space, tab or newline, or the character
right before the syntax is one; (ii) the syntax ends with a space, tab or newline, or the
character right after the syntax exists and is one. -/
theorem smart_insert_no_merge (st : State) (text syn : JSString) (caret : Nat)
    (hne : syn ≠ []) :
    ∃ lead trail pre post : JSString,
      (lead = [] ∨ lead = [' ']) ∧ (trail = [] ∨ trail = [' ']) ∧
      pre = text.take caret ++ lead ∧ post = trail ++ text.drop caret ∧
      (smart_insert { st with textarea := Textarea.at_caret text caret } syn).textarea.val =
        pre ++ syn ++ post ∧
      (pre = [] ∨ StartsWithSpace syn ∨ EndsWithSpace pre) ∧
      (EndsWithSpace syn ∨ StartsWithSpace post) := by
  obtain ⟨lead, trail, hlead, hlead2, htrail, htrail2, heq⟩ :=
    smart_insert_decomposition st text syn caret
  rw [endsWithSpace_append_of_ne_nil _ _ hne] at htrail
  refine ⟨lead, trail, text.take caret ++ lead, trail ++ text.drop caret, hlead2, htrail2,
    rfl, rfl, ?_, ?_, ?_⟩
  · rw [heq]; simp [Textarea.at_caret, Textarea.val]
  · rcases hlead2 with h | h
    · subst h
      have hn : ¬ (0 < caret ∧ ¬ EndsWithSpace (text.take caret) ∧ ¬ StartsWithSpace syn) :=
        fun hc => by simpa using hlead.mpr hc
      by_cases h1 : StartsWithSpace syn
      · exact Or.inr (Or.inl h1)
      · by_cases h2 : EndsWithSpace (text.take caret)
        · exact Or.inr (Or.inr (by simpa using h2))
        · left
          have h0 : caret = 0 := by
            by_contra hc
            exact hn ⟨Nat.pos_of_ne_zero hc, h2, h1⟩
          simp [h0]
    · subst h
      right; right
      rw [endsWithSpace_append_of_ne_nil _ _ (by simp)]
      exact ⟨' ', by simp, Or.inl rfl⟩
  · rcases htrail2 with h | h
    · subst h
      by_cases h1 : EndsWithSpace syn
      · exact Or.inl h1
      · right
        by_contra hc
        have := htrail.mpr (by simpa using ⟨hc, h1⟩)
        simp at this
    · subst h
      right
      exact ⟨' ', by simp, Or.inl rfl⟩

/-- C5, at the text `ab` with the caret between the letters and the syntax `x`: the text
becomes `a x b`. -/
theorem smart_insert_no_merge_witness :
    ∃ lead trail pre post : JSString,
      (lead = [] ∨ lead = [' ']) ∧ (trail = [] ∨ trail = [' ']) ∧
      pre = "ab".toList.take 1 ++ lead ∧ post = trail ++ "ab".toList.drop 1 ∧
      (smart_insert { State.initial (Textarea.at_caret [] 0) with
          textarea := Textarea.at_caret "ab".toList 1 } "x".toList).textarea.val =
        pre ++ "x".toList ++ post ∧
      (pre = [] ∨ StartsWithSpace "x".toList ∨ EndsWithSpace pre) ∧
      (EndsWithSpace "x".toList ∨ StartsWithSpace post) :=
  smart_insert_no_merge (State.initial (Textarea.at_caret [] 0)) "ab".toList "x".toList 1
    (by decide)

/-! ## The claims on replace_syntax -/

/-- C6 (literal string pattern). With a string as `old_syntax` (non-empty or not): if it occurs in the
text, the text is `p ++ old_syntax ++ s` with `old_syntax` standing in `p ++ old_syntax` only
as its suffix (the leftmost occurrence), and the new text is `p ++ new_syntax ++ s`, so `s`
and any later occurrence in it are untouched; if it does not occur, the text is unchanged.
Both strings are arbitrary: `new_syntax` goes in as it is and `old_syntax` is matched as it
is, whatever `$` sequences they hold. -/
theorem replace_syntax_string (st : State) ( old_syntax new_syntax : JSString) :
    ( old_syntax <:+: st.textarea.val →
      ∃ p s : JSString, st.textarea.val = p ++ old_syntax ++ s ∧
        (∀ p' s' : JSString, p ++ old_syntax = p' ++ old_syntax ++ s' → s' = []) ∧
        ( replace_syntax st (Pattern.string old_syntax) new_syntax).textarea.val =
          p ++ new_syntax ++ s) ∧
    (¬ old_syntax <:+: st.textarea.val →
      ( replace_syntax st (Pattern.string old_syntax) new_syntax).textarea.val =
        st.textarea.val) := by
  have hspec := indexOf_spec old_syntax st.textarea.val
  constructor
  · intro hin
    cases hi : indexOf old_syntax st.textarea.val with
    | none => exact absurd hin ((indexOf_eq_none_iff _ _).mp hi)
    | some k =>
      rw [hi] at hspec
      obtain ⟨p, s, hps, hlen, hmin⟩ := hspec
      refine ⟨p, s, hps, ?_, ?_⟩
      · intro p' s' heq
        have h1 : st.textarea.val = p' ++ old_syntax ++ (s' ++ s) := by
          rw [hps, heq]; simp
        have h2 := hmin p' (s' ++ s) h1
        have h3 := congrArg List.length heq
        simp only [List.length_append] at h3
        have h4 : s'.length = 0 := by omega
        exact List.length_eq_zero.mp h4
      · simp only [ replace_syntax, replace, Textarea.set_val, hi]
        have h5 : st.textarea.val = p ++ ( old_syntax ++ s) := by rw [hps]; simp
        have h6 : st.textarea.val = (p ++ old_syntax) ++ s := by rw [hps]
        have h7 : k + old_syntax.length = (p ++ old_syntax).length := by simp [hlen]
        rw [h7]
        nth_rewrite 2 [h6]
        rw [List.drop_left, h5, ← hlen, List.take_left]
        simp [Textarea.val]
  · intro hnin
    have hi := (indexOf_eq_none_iff _ _).mpr hnin
    simp only [ replace_syntax, replace, Textarea.set_val, hi]
    rfl

/-- C6, at the text `a$&b` with `$&` replaced by `X`: the text becomes `aXb`. -/
theorem replace_syntax_string_witness :
    (∃ p s : JSString, "a$&b".toList = p ++ "$&".toList ++ s ∧
        (∀ p' s' : JSString, p ++ "$&".toList = p' ++ "$&".toList ++ s' → s' = []) ∧
        ( replace_syntax (State.initial (Textarea.at_caret "a$&b".toList 0))
            (Pattern.string "$&".toList) "X".toList).textarea.val = p ++ "X".toList ++ s) ∧
      ( replace_syntax (State.initial (Textarea.at_caret "a$&b".toList 0))
          (Pattern.string "$&".toList) "X".toList).textarea.val = "aXb".toList :=
  ⟨( replace_syntax_string (State.initial (Textarea.at_caret "a$&b".toList 0))
      "$&".toList "X".toList).1 (by decide), by decide⟩

/-- C7 (replace-all mode). For a pattern with the global flag whose matcher is well formed,
the scan of the text from offset 0 is complete (it ends where the pattern finds no further
match), its matches are non-overlapping and cut the text into the skipped texts, the matched
texts and the tail, and the new text is the same sequence with every matched text replaced
by `new_syntax` as it is. For the pattern of a non-empty literal `w`, the text is a list of
gaps joined by `w` and the new text is the same gaps joined by `new_syntax`, where each `w`
joining two gaps is the leftmost occurrence behind the previous one and the last gap holds no
occurrence: the copies of `new_syntax` put in are as many as the non-overlapping occurrences
of `w`, scanning left to right. -/
theorem replace_syntax_global (st : State) ( new_syntax : JSString) :
    (∀ re : RegExp, re.global = true → re.WellFormed →
      ∃ segs tail, Scanned re st.textarea.val 0 0 segs tail ∧
        st.textarea.val = assemble (fun m => m) segs tail ∧
        ( replace_syntax st (Pattern.regexp re) new_syntax).textarea.val =
          assemble (fun _ => new_syntax) segs tail) ∧
    (∀ w : JSString, w ≠ [] →
      ∃ gaps : List JSString, gaps ≠ [] ∧ st.textarea.val = join w gaps ∧
        ( replace_syntax st (Pattern.regexp (RegExp.literal w true)) new_syntax).textarea.val =
          join new_syntax gaps ∧
        (∀ g ∈ gaps.dropLast, ¬ w <:+: g ++ w.dropLast) ∧
        (∀ g, gaps.getLast? = some g → ¬ w <:+: g)) := by
  have hgen : ∀ re : RegExp, re.global = true → re.WellFormed →
      ∃ segs tail, Scanned re st.textarea.val 0 0 segs tail ∧
        st.textarea.val = assemble (fun m => m) segs tail ∧
        ( replace_syntax st (Pattern.regexp re) new_syntax).textarea.val =
          assemble (fun _ => new_syntax) segs tail := by
    intro re hg hwf
    obtain ⟨segs, tail, hscan, htext, hsplice⟩ :=
      splice_results re hg hwf st.textarea.val (fun _ => new_syntax)
        (st.textarea.val.length + 2) 0 0 (le_refl 0) (le_refl _)
    refine ⟨segs, tail, hscan, by simpa using htext, ?_⟩
    simp only [ replace_syntax, replace, Textarea.set_val]
    exact hsplice
  refine ⟨hgen, ?_⟩
  intro w hw
  obtain ⟨segs, tail, hscan, htext, hres⟩ := hgen (RegExp.literal w true) rfl
    (literal_wellFormed w true)
  obtain ⟨hjoin, hgaps, htail⟩ :=
    scanned_literal w hw st.textarea.val 0 0 segs tail hscan rfl (Nat.zero_le _)
  refine ⟨segs.map Prod.fst ++ [tail], by simp, ?_, ?_, ?_, ?_⟩
  · rw [htext]; exact hjoin (fun m => m)
  · rw [hres]; exact hjoin (fun _ => new_syntax)
  · intro g hg
    rw [List.dropLast_concat] at hg
    exact hgaps g hg
  · intro g hg
    rw [List.getLast?_concat] at hg
    cases hg
    exact htail

/-- C7, at the text `aXbXXc` with every `X` replaced by `$1`: the text is the gaps `a`, `b`,
the empty string and `c` joined by `X`, and it becomes `a$1b$1$1c`. -/
theorem replace_syntax_global_witness :
    (∃ gaps : List JSString, gaps ≠ [] ∧ "aXbXXc".toList = join "X".toList gaps ∧
        ( replace_syntax (State.initial (Textarea.at_caret "aXbXXc".toList 0))
          (Pattern.regexp (RegExp.literal "X".toList true)) "$1".toList).textarea.val =
          join "$1".toList gaps ∧
        (∀ g ∈ gaps.dropLast, ¬ "X".toList <:+: g ++ "X".toList.dropLast) ∧
        (∀ g, gaps.getLast? = some g → ¬ "X".toList <:+: g)) ∧
      ( replace_syntax (State.initial (Textarea.at_caret "aXbXXc".toList 0))
        (Pattern.regexp (RegExp.literal "X".toList true)) "$1".toList).textarea.val =
        "a$1b$1$1c".toList :=
  ⟨( replace_syntax_global (State.initial (Textarea.at_caret "aXbXXc".toList 0))
      "$1".toList).2 "X".toList (by decide), by decide⟩

/-! ## The claims on compute_placeholder_text -/

/-- C8 (stream targets). For a stream target with a non-empty stream name `s`, the result is
`Message #` ++ s ++ ` > ` ++ tp when a non-empty topic `tp` is set as well, and
`Message #` ++ s when the topic is not set (undefined, or the empty string); `s` and `tp`
appear as they are, whatever the private-message recipient field holds. -/
theorem compute_placeholder_text_stream (dir : Directory) (s : JSString) (pm : JSValue)
    (hs : s ≠ []) :
    (∀ tp : JSString, tp ≠ [] →
      compute_placeholder_text dir
        { message_type := JSValue.string "stream".toList, stream := JSValue.string s,
          topic := JSValue.string tp, private_message_recipient := pm } =
        Except.ok ("Message #".toList ++ s ++ " > ".toList ++ tp)) ∧
    compute_placeholder_text dir
        { message_type := JSValue.string "stream".toList, stream := JSValue.string s,
          topic := JSValue.undefined, private_message_recipient := pm } =
      Except.ok ("Message #".toList ++ s) ∧
    compute_placeholder_text dir
        { message_type := JSValue.string "stream".toList, stream := JSValue.string s,
          topic := JSValue.string [], private_message_recipient := pm } =
      Except.ok ("Message #".toList ++ s) := by
  refine ⟨fun tp htp => ?_, ?_, ?_⟩
  · simp [compute_placeholder_text, truthy, htp, t, format, lookup, JSValue.text, pure,
      Except.pure]
  · simp [compute_placeholder_text, truthy, hs, t, format, lookup, JSValue.text, pure,
      Except.pure]
  · simp [compute_placeholder_text, truthy, hs, t, format, lookup, JSValue.text, pure,
      Except.pure]

/-- C8, at the stream `general`: with the topic `bots` the text is `Message #general > bots`,
without a topic it is `Message #general`. -/
theorem compute_placeholder_text_stream_witness :
    compute_placeholder_text (Directory.sample JSValue.undefined)
        { message_type := JSValue.string "stream".toList,
          stream := JSValue.string "general".toList,
          topic := JSValue.string "bots".toList,
          private_message_recipient := JSValue.undefined } =
      Except.ok ("Message #".toList ++ "general".toList ++ " > ".toList ++ "bots".toList) ∧
    compute_placeholder_text (Directory.sample JSValue.undefined)
        { message_type := JSValue.string "stream".toList,
          stream := JSValue.string "general".toList,
          topic := JSValue.undefined,
          private_message_recipient := JSValue.undefined } =
      Except.ok ("Message #".toList ++ "general".toList) :=
  ⟨( compute_placeholder_text_stream (Directory.sample JSValue.undefined) "general".toList JSValue.undefined
      (by decide)).1 "bots".toList (by decide),
   ( compute_placeholder_text_stream (Directory.sample JSValue.undefined) "general".toList JSValue.undefined
      (by decide)).2.1⟩

/-- C9 (one direct-message recipient). For a target that no stream rule applies to and whose
recipient field is one reference `r` (non-empty, without a comma) that resolves to a user,
the result is `Message ` ++ name ++ ` (` ++ status ++ `)` when the status provider returns a
non-empty status text for that user, and `Message ` ++ name when it returns none (undefined,
or the empty string). -/
theorem compute_placeholder_text_single_recipient (dir : Directory)
    (mt stream topic : JSValue) (r : JSString) (user : Person)
    (hdm : mt ≠ JSValue.string "stream".toList ∨
      (truthy topic = false ∧ truthy stream = false))
    (hr : r ≠ []) (hcomma : ',' ∉ r) (huser : dir.get_by_email r = some user) :
    (∀ status : JSString, status ≠ [] →
      dir.get_status_text user.user_id = JSValue.string status →
      compute_placeholder_text dir
        { message_type := mt, stream := stream, topic := topic,
          private_message_recipient := JSValue.string r } =
        Except.ok ("Message ".toList ++ user.full_name ++ " (".toList ++ status ++ ")".toList)) ∧
    ((dir.get_status_text user.user_id = JSValue.undefined ∨
        dir.get_status_text user.user_id = JSValue.string []) →
      compute_placeholder_text dir
        { message_type := mt, stream := stream, topic := topic,
          private_message_recipient := JSValue.string r } =
        Except.ok ("Message ".toList ++ user.full_name)) := by
  have hnames := mapM_full_name dir [r] [user] (by simp [huser])
  constructor
  · intro status hst hstatus
    rw [not_stream_rule dir _ hdm]
    simp only [private_placeholder_text, truthy, JSValue.text, split_of_not_mem ',' r hcomma,
      hnames]
    simp [hr, get_user, huser, hstatus, truthy, hst, t, format, lookup, JSValue.text, join,
      bind, Except.bind, pure, Except.pure]
  · intro hstatus
    rw [not_stream_rule dir _ hdm]
    simp only [private_placeholder_text, truthy, JSValue.text, split_of_not_mem ',' r hcomma,
      hnames]
    rcases hstatus with h | h <;>
      simp [hr, get_user, huser, h, truthy, t, format, lookup, JSValue.text, join,
        bind, Except.bind, pure, Except.pure]

/-- C9, at the single recipient Alice: with the status `on vacation` the text is
`Message Alice (on vacation)`, with no status it is `Message Alice`. -/
theorem compute_placeholder_text_single_recipient_witness :
    compute_placeholder_text (Directory.sample (JSValue.string "on vacation".toList))
        { message_type := JSValue.string "private".toList, stream := JSValue.undefined,
          topic := JSValue.undefined,
          private_message_recipient := JSValue.string "alice@example.com".toList } =
      Except.ok ("Message ".toList ++ "Alice".toList ++ " (".toList ++ "on vacation".toList
        ++ ")".toList) ∧
    compute_placeholder_text (Directory.sample JSValue.undefined)
        { message_type := JSValue.string "private".toList, stream := JSValue.undefined,
          topic := JSValue.undefined,
          private_message_recipient := JSValue.string "alice@example.com".toList } =
      Except.ok ("Message ".toList ++ "Alice".toList) :=
  ⟨( compute_placeholder_text_single_recipient
        (Directory.sample (JSValue.string "on vacation".toList))
        (JSValue.string "private".toList) JSValue.undefined JSValue.undefined
        "alice@example.com".toList { full_name := "Alice".toList, user_id := 1 }
        (Or.inl (by decide)) (by decide) (by decide) (by decide)).1
      "on vacation".toList (by decide) (by decide),
   ( compute_placeholder_text_single_recipient (Directory.sample JSValue.undefined)
        (JSValue.string "private".toList) JSValue.undefined JSValue.undefined
        "alice@example.com".toList { full_name := "Alice".toList, user_id := 1 }
        (Or.inl (by decide)) (by decide) (by decide) (by decide)).2 (Or.inl (by decide))⟩

/-- C10 (several direct-message recipients). For a target that no stream rule applies to and
whose recipient field lists two or more references (comma-separated, none holding a comma)
that all resolve, the result is `Message ` followed by the users' full names, in the order
of the list, joined with `, `; the status provider has no part in it. -/
theorem compute_placeholder_text_several_recipients (dir : Directory)
    (mt stream topic : JSValue) (rs : List JSString) (users : List Person)
    (hdm : mt ≠ JSValue.string "stream".toList ∨
      (truthy topic = false ∧ truthy stream = false))
    (hlen : 2 ≤ rs.length) (hcomma : ∀ r ∈ rs, ',' ∉ r)
    (husers : rs.map dir.get_by_email = users.map some) :
    compute_placeholder_text dir
        { message_type := mt, stream := stream, topic := topic,
          private_message_recipient := JSValue.string (join [','] rs) } =
      Except.ok ("Message ".toList ++ join ", ".toList (users.map (fun u => u.full_name))) := by
  have hne : rs ≠ [] := by
    intro h
    simp [h] at hlen
  have hnames := mapM_full_name dir rs users husers
  have htruthy : join [','] rs ≠ [] := join_ne_nil_of_two_le [','] (by simp) rs hlen
  have hlen1 : rs.length ≠ 1 := by omega
  rw [not_stream_rule dir _ hdm]
  simp only [private_placeholder_text, truthy, JSValue.text, split_join ',' rs hne hcomma,
    hnames]
  simp [htruthy, hlen1, t, format, lookup, JSValue.text, bind, Except.bind, pure, Except.pure]

/-- C10, at the recipients Alice and Bob (Alice has a status text): the text is
`Message Alice, Bob`. -/
theorem compute_placeholder_text_several_recipients_witness :
    compute_placeholder_text (Directory.sample (JSValue.string "on vacation".toList))
        { message_type := JSValue.string "private".toList, stream := JSValue.undefined,
          topic := JSValue.undefined,
          private_message_recipient :=
            JSValue.string (join [','] ["alice@example.com".toList, "bob@example.com".toList]) } =
      Except.ok ("Message ".toList ++ join ", ".toList
        ([{ full_name := "Alice".toList, user_id := 1 },
          { full_name := "Bob".toList, user_id := 2 }].map (fun u : Person => u.full_name))) ∧
    "Message ".toList ++ join ", ".toList
        ([{ full_name := "Alice".toList, user_id := 1 },
          { full_name := "Bob".toList, user_id := 2 }].map (fun u : Person => u.full_name)) =
      "Message Alice, Bob".toList ∧
    join [','] ["alice@example.com".toList, "bob@example.com".toList] =
      "alice@example.com,bob@example.com".toList :=
  ⟨ compute_placeholder_text_several_recipients
      (Directory.sample (JSValue.string "on vacation".toList))
      (JSValue.string "private".toList) JSValue.undefined JSValue.undefined
      ["alice@example.com".toList, "bob@example.com".toList]
      [{ full_name := "Alice".toList, user_id := 1 }, { full_name := "Bob".toList, user_id := 2 }]
      (Or.inl (by decide)) (by decide) (by decide) (by decide), by decide, by decide⟩

/-- C11 (unknown recipient). For a target that no stream rule applies to and whose recipient
field is a non-empty string, if one of the references in it (wherever it stands among the
comma-separated references, and whatever the others resolve to) is not resolved by the
directory, `compute_placeholder_text` fails with an error and returns no placeholder text. -/
theorem compute_placeholder_text_unknown_recipient (dir : Directory)
    (mt stream topic : JSValue) (pm r : JSString)
    (hdm : mt ≠ JSValue.string "stream".toList ∨
      (truthy topic = false ∧ truthy stream = false))
    (hpm : pm ≠ []) (hr : r ∈ split ',' pm) (hnone : dir.get_by_email r = none) :
    compute_placeholder_text dir
        { message_type := mt, stream := stream, topic := topic,
          private_message_recipient := JSValue.string pm } =
      Except.error Error.type_error ∧
    ∀ text : JSString,
      compute_placeholder_text dir
        { message_type := mt, stream := stream, topic := topic,
          private_message_recipient := JSValue.string pm } ≠ Except.ok text := by
  have herr := mapM_full_name_error dir (split ',' pm) r hr hnone
  have h : compute_placeholder_text dir
        { message_type := mt, stream := stream, topic := topic,
          private_message_recipient := JSValue.string pm } =
      Except.error Error.type_error := by
    rw [not_stream_rule dir _ hdm]
    simp only [private_placeholder_text, truthy, JSValue.text, herr]
    simp [hpm, bind, Except.bind]
  refine ⟨h, fun text => ?_⟩
  rw [h]
  simp

/-- C11, at the recipients Alice and Carol, of whom the directory knows only Alice: the call
fails. -/
theorem compute_placeholder_text_unknown_recipient_witness :
    compute_placeholder_text (Directory.sample JSValue.undefined)
        { message_type := JSValue.string "private".toList, stream := JSValue.undefined,
          topic := JSValue.undefined,
          private_message_recipient :=
            JSValue.string "alice@example.com,carol@example.com".toList } =
      Except.error Error.type_error :=
  ( compute_placeholder_text_unknown_recipient (Directory.sample JSValue.undefined)
      (JSValue.string "private".toList) JSValue.undefined JSValue.undefined
      "alice@example.com,carol@example.com".toList "carol@example.com".toList
      (Or.inl (by decide)) (by decide) (by decide) (by decide)).1

/-- C12 (default text). For the unset target (no message type, stream, topic or recipient)
and for a stream target whose stream, topic and recipient fields are each unset or empty, the
result is `Compose your message here`, whatever the directory and the status provider
are: neither is needed for it. -/
theorem compute_placeholder_text_default (dir : Directory) :
    compute_placeholder_text dir
        { message_type := JSValue.undefined, stream := JSValue.undefined,
          topic := JSValue.undefined, private_message_recipient := JSValue.undefined } =
      Except.ok "Compose your message here".toList ∧
    ∀ stream topic pm : JSValue,
      truthy stream = false → truthy topic = false → truthy pm = false →
      compute_placeholder_text dir
        { message_type := JSValue.string "stream".toList, stream := stream,
          topic := topic, private_message_recipient := pm } =
        Except.ok "Compose your message here".toList := by
  constructor
  · rw [not_stream_rule dir _ (Or.inl (by decide))]
    exact private_placeholder_text_default dir _ rfl
  · intro stream topic pm hs ht hp
    rw [not_stream_rule dir _ (Or.inr ⟨ht, hs⟩)]
    exact private_placeholder_text_default dir _ hp

/-- C12, at the stream target with the empty string in every field, against a directory
that knows Alice and Bob only. -/
theorem compute_placeholder_text_default_witness :
    compute_placeholder_text (Directory.sample JSValue.undefined)
        { message_type := JSValue.string "stream".toList, stream := JSValue.string [],
          topic := JSValue.string [], private_message_recipient := JSValue.string [] } =
      Except.ok "Compose your message here".toList :=
  ( compute_placeholder_text_default (Directory.sample JSValue.undefined)).2
    (JSValue.string []) (JSValue.string []) (JSValue.string [])
    (by decide) (by decide) (by decide)

/-- C14 (topic without a stream), the code at the stream target with the topic `bots` and no
stream (the empty string in the stream field): the first branch tests the topic alone, so
the result is the stream and topic form with nothing for the stream name,
`Message # > bots`, and not the default text. -/
theorem compute_placeholder_text_topic_without_stream (dir : Directory) (pm : JSValue) :
    compute_placeholder_text dir
        { message_type := JSValue.string "stream".toList, stream := JSValue.string [],
          topic := JSValue.string "bots".toList, private_message_recipient := pm } =
      Except.ok "Message # > bots".toList ∧
    compute_placeholder_text dir
        { message_type := JSValue.string "stream".toList, stream := JSValue.string [],
          topic := JSValue.string "bots".toList, private_message_recipient := pm } ≠
      Except.ok "Compose your message here".toList := by
  have h : compute_placeholder_text dir
        { message_type := JSValue.string "stream".toList, stream := JSValue.string [],
          topic := JSValue.string "bots".toList, private_message_recipient := pm } =
      Except.ok "Message # > bots".toList := by
    simp [compute_placeholder_text, truthy, t, format, lookup, JSValue.text, pure, Except.pure]
  refine ⟨h, ?_⟩
  rw [h]
  intro hc
  exact absurd (Except.ok.inj hc) (by decide)

/-- C15 as stated fails: for the direct-message target with the empty recipient field the
result is not `Message ` followed by the join of no names. -/
theorem compute_placeholder_text_no_recipient_counterexample :
    ¬ (compute_placeholder_text (Directory.sample JSValue.undefined)
        { message_type := JSValue.string "private".toList, stream := JSValue.undefined,
          topic := JSValue.undefined, private_message_recipient := JSValue.string [] } =
      Except.ok ("Message ".toList ++ join ", ".toList [])) := by
  rw [not_stream_rule _ _ (Or.inl (by decide))]
  intro hc
  rw [private_placeholder_text_default (Directory.sample JSValue.undefined)
    { message_type := JSValue.string "private".toList, stream := JSValue.undefined,
      topic := JSValue.undefined, private_message_recipient := JSValue.string [] } rfl] at hc
  exact absurd (Except.ok.inj hc) (by decide)

/-- C15 (empty recipient list), amended. For a target that no stream rule applies to and
whose recipient field is empty or unset, `compute_placeholder_text` does not fail and returns
the default text `Compose your message here`: the recipient block runs only for a non-empty
recipient field, so the text of rule 4 is not produced. -/
theorem compute_placeholder_text_no_recipient (dir : Directory) (mt stream topic : JSValue)
    (hdm : mt ≠ JSValue.string "stream".toList ∨
      (truthy topic = false ∧ truthy stream = false)) :
    compute_placeholder_text dir
        { message_type := mt, stream := stream, topic := topic,
          private_message_recipient := JSValue.string [] } =
      Except.ok "Compose your message here".toList ∧
    compute_placeholder_text dir
        { message_type := mt, stream := stream, topic := topic,
          private_message_recipient := JSValue.undefined } =
      Except.ok "Compose your message here".toList := by
  constructor
  · rw [not_stream_rule dir _ hdm]
    exact private_placeholder_text_default dir _ rfl
  · rw [not_stream_rule dir _ hdm]
    exact private_placeholder_text_default dir _ rfl

/-- C15 amended, at the direct-message target with the empty recipient field. -/
theorem compute_placeholder_text_no_recipient_witness :
    compute_placeholder_text (Directory.sample JSValue.undefined)
        { message_type := JSValue.string "private".toList, stream := JSValue.undefined,
          topic := JSValue.undefined, private_message_recipient := JSValue.string [] } =
      Except.ok "Compose your message here".toList :=
  ( compute_placeholder_text_no_recipient (Directory.sample JSValue.undefined)
      (JSValue.string "private".toList) JSValue.undefined JSValue.undefined
      (Or.inl (by decide))).1

/-! ## The claims on the full-size mode -/

/-- C13 (mode toggling). From every state, `is_full_size()` is true after
`make_compose_box_full_size` and false after `make_compose_box_original_size`; entering twice
leaves the mode full size, leaving twice leaves it normal, and after any sequence of calls of
the two functions the mode is the one the last call sets. -/
theorem mode_toggle_last_call_wins (st : State) :
    is_full_size (make_compose_box_full_size st) = true ∧
    is_full_size (make_compose_box_original_size st) = false ∧
    is_full_size (make_compose_box_full_size (make_compose_box_full_size st)) = true ∧
    is_full_size (make_compose_box_original_size (make_compose_box_original_size st)) = false ∧
    ∀ (cs : List ModeCall) (c : ModeCall),
      is_full_size (run_mode_calls st (cs ++ [c])) = decide (c = ModeCall.enter) := by
  have hfull : ∀ s : State, is_full_size (make_compose_box_full_size s) = true := by
    intro s
    simp [make_compose_box_full_size, set_full_size, State.call, is_full_size]
  have horig : ∀ s : State, is_full_size (make_compose_box_original_size s) = false := by
    intro s
    simp [make_compose_box_original_size, set_full_size, State.call, is_full_size]
  refine ⟨hfull st, horig st, hfull _, horig _, ?_⟩
  intro cs c
  simp only [run_mode_calls, List.foldl_append, List.foldl_cons, List.foldl_nil]
  cases c
  · simpa [ModeCall.run] using hfull _
  · simpa [ModeCall.run] using horig _

/-! ## Further claims on smart_insert -/

/-- C16 (empty syntax). `smart_insert` with the empty syntax is a total function of the state
and puts in at most one space. Where the caret is behind offset 0 and the text before it does
not end with a space, tab or newline, exactly one space goes in (the leading pad, behind which
no second space is added). Where the caret is at offset 0 or the text before it ends with
whitespace, exactly one space goes in if the text after the caret is empty or starts with
another character, and the text and the caret are left as they were if it starts with
whitespace. -/
theorem smart_insert_empty_syntax (st : State) (text : JSString) (caret : Nat) :
    (∃ ins : JSString, (ins = [] ∨ ins = [' ']) ∧
      (smart_insert { st with textarea := Textarea.at_caret text caret } []).textarea =
        Textarea.at_caret (text.take caret ++ ins ++ text.drop caret) (caret + ins.length)) ∧
    (0 < caret ∧ ¬ EndsWithSpace (text.take caret) →
      (smart_insert { st with textarea := Textarea.at_caret text caret } []).textarea =
        Textarea.at_caret (text.take caret ++ [' '] ++ text.drop caret) (caret + 1)) ∧
    (caret = 0 ∨ EndsWithSpace (text.take caret) → ¬ StartsWithSpace (text.drop caret) →
      (smart_insert { st with textarea := Textarea.at_caret text caret } []).textarea =
        Textarea.at_caret (text.take caret ++ [' '] ++ text.drop caret) (caret + 1)) ∧
    (caret = 0 ∨ EndsWithSpace (text.take caret) → StartsWithSpace (text.drop caret) →
      (smart_insert { st with textarea := Textarea.at_caret text caret } []).textarea =
        Textarea.at_caret text caret) := by
  obtain ⟨lead, trail, hlead, hlead2, htrail, htrail2, heq⟩ :=
    smart_insert_decomposition st text [] caret
  have hns : ¬ StartsWithSpace ([] : JSString) := by simp [StartsWithSpace]
  have hne : ¬ EndsWithSpace ([] : JSString) := by simp [EndsWithSpace]
  have hes : EndsWithSpace [' '] := ⟨' ', by simp, Or.inl rfl⟩
  rw [heq]
  refine ⟨?_, ?_, ?_, ?_⟩
  · rcases hlead2 with h | h
    · subst h
      exact ⟨trail, htrail2, by simp⟩
    · subst h
      have ht : trail = [] := by
        rcases htrail2 with h | h
        · exact h
        · exact absurd (Or.inr (by simpa using hes)) (htrail.mp h)
      subst ht
      exact ⟨[' '], Or.inr rfl, by simp⟩
  · rintro ⟨hpos, hb⟩
    have hl : lead = [' '] := hlead.mpr ⟨hpos, hb, hns⟩
    subst hl
    have ht : trail = [] := by
      rcases htrail2 with h | h
      · exact h
      · exact absurd (Or.inr (by simpa using hes)) (htrail.mp h)
    subst ht
    simp
  · intro hc ha
    have hl : lead = [] := by
      rcases hlead2 with h | h
      · exact h
      · have := hlead.mp h
        rcases hc with hc | hc
        · omega
        · exact absurd hc this.2.1
    subst hl
    have ht : trail = [' '] := htrail.mpr (by simpa using ⟨ha, hne⟩)
    subst ht
    simp
  · intro hc ha
    have hl : lead = [] := by
      rcases hlead2 with h | h
      · exact h
      · have := hlead.mp h
        rcases hc with hc | hc
        · omega
        · exact absurd hc this.2.1
    subst hl
    have ht : trail = [] := by
      rcases htrail2 with h | h
      · exact h
      · exact absurd (Or.inl ha) (htrail.mp h)
    subst ht
    simp

/-- C16, at the text `ab` with the empty syntax: with the caret between the letters one space
goes in; at the text ` b` with the caret at offset 0 nothing changes. -/
theorem smart_insert_empty_syntax_witness :
    (smart_insert { State.initial (Textarea.at_caret [] 0) with
        textarea := Textarea.at_caret "ab".toList 1 } []).textarea =
      Textarea.at_caret ("ab".toList.take 1 ++ [' '] ++ "ab".toList.drop 1) (1 + 1) ∧
    (smart_insert { State.initial (Textarea.at_caret [] 0) with
        textarea := Textarea.at_caret " b".toList 0 } []).textarea =
      Textarea.at_caret " b".toList 0 :=
  ⟨( smart_insert_empty_syntax (State.initial (Textarea.at_caret [] 0)) "ab".toList 1).2.1
      ⟨by decide, by decide⟩,
   ( smart_insert_empty_syntax (State.initial (Textarea.at_caret [] 0)) " b".toList 0).2.2.2
      (Or.inl rfl) (by decide)⟩

/-- C17 (no needless leading space). If the caret is at offset 0, or the text before it ends
with a space, tab or newline, or the syntax starts with one, nothing is put in front of the
syntax: the text inserted at the caret is the syntax followed by the trailing pad. In
general the text inserted is `lead ++ syntax ++ trail`, where `lead` is a single space if and
only if the caret is behind offset 0 and neither the text before it ends nor the syntax
starts with whitespace (an empty syntax starts with none), and is empty otherwise. -/
theorem smart_insert_no_leading_pad (st : State) (text syn : JSString) (caret : Nat) :
    (caret = 0 ∨ EndsWithSpace (text.take caret) ∨ StartsWithSpace syn →
      ∃ trail : JSString, (trail = [] ∨ trail = [' ']) ∧
        (smart_insert { st with textarea := Textarea.at_caret text caret } syn).textarea.val =
          text.take caret ++ syn ++ trail ++ text.drop caret) ∧
    ∃ lead trail : JSString,
      (lead = [' '] ↔ 0 < caret ∧ ¬ EndsWithSpace (text.take caret) ∧ ¬ StartsWithSpace syn) ∧
      (lead = [] ↔ (caret = 0 ∨ EndsWithSpace (text.take caret) ∨ StartsWithSpace syn)) ∧
      (trail = [' '] ↔ ¬ (StartsWithSpace (text.drop caret) ∨ EndsWithSpace (lead ++ syn))) ∧
      (trail = [] ∨ trail = [' ']) ∧
      (smart_insert { st with textarea := Textarea.at_caret text caret } syn).textarea.val =
        text.take caret ++ lead ++ syn ++ trail ++ text.drop caret := by
  obtain ⟨lead, trail, hlead, hlead2, htrail, htrail2, heq⟩ :=
    smart_insert_decomposition st text syn caret
  have hnil : lead = [] ↔ (caret = 0 ∨ EndsWithSpace (text.take caret) ∨ StartsWithSpace syn) := by
    constructor
    · intro h
      subst h
      have hn : ¬ (0 < caret ∧ ¬ EndsWithSpace (text.take caret) ∧ ¬ StartsWithSpace syn) :=
        fun hc => by simpa using hlead.mpr hc
      by_cases h0 : caret = 0
      · exact Or.inl h0
      · by_cases hb : EndsWithSpace (text.take caret)
        · exact Or.inr (Or.inl hb)
        · by_cases hs : StartsWithSpace syn
          · exact Or.inr (Or.inr hs)
          · exact absurd ⟨Nat.pos_of_ne_zero h0, hb, hs⟩ hn
    · intro h
      rcases hlead2 with hl | hl
      · exact hl
      · have := hlead.mp hl
        rcases h with h | h | h
        · omega
        · exact absurd h this.2.1
        · exact absurd h this.2.2
  constructor
  · intro h
    have hl := hnil.mpr h
    subst hl
    exact ⟨trail, htrail2, by rw [heq]; simp [Textarea.at_caret, Textarea.val]⟩
  · exact ⟨lead, trail, hlead, hnil, htrail, htrail2,
      by rw [heq]; simp [Textarea.at_caret, Textarea.val]⟩

/-- C17, at the text `a b` with the caret behind the space and the syntax `x`: nothing is put
in front of the syntax. -/
theorem smart_insert_no_leading_pad_witness :
    ∃ trail : JSString, (trail = [] ∨ trail = [' ']) ∧
      (smart_insert { State.initial (Textarea.at_caret [] 0) with
          textarea := Textarea.at_caret "a b".toList 2 } "x".toList).textarea.val =
        "a b".toList.take 2 ++ "x".toList ++ trail ++ "a b".toList.drop 2 :=
  ( smart_insert_no_leading_pad (State.initial (Textarea.at_caret [] 0)) "a b".toList
      "x".toList 2).1 (Or.inr (Or.inl (by decide)))

/-- C18 (the full-size flag). `smart_insert` leaves `is_full_size()` as it was. The calls it
makes are the focus of the text area and then, if the flag is off when it is called, one
`autosize.update`; if the flag is on it makes no `autosize.update` call. The text area it
leaves (text and caret) is the same for both values of the flag. -/
theorem smart_insert_full_size_flag (st : State) (syn : JSString) :
    is_full_size (smart_insert st syn) = is_full_size st ∧
    (smart_insert st syn).calls =
      st.calls ++ [Call.focus] ++ (if is_full_size st then [] else [Call.autosize_update]) ∧
    (smart_insert st syn).calls.count Call.autosize_update =
      st.calls.count Call.autosize_update + (if is_full_size st then 0 else 1) ∧
    (smart_insert { st with full_size_status := true } syn).textarea =
      (smart_insert { st with full_size_status := false } syn).textarea := by
  cases hs : st.insertText_supported <;> cases hf : st.full_size_status <;>
    simp [smart_insert, autosize_textarea, is_full_size, State.call, hs, hf, List.count_cons]

/-- C19 (only inserts). For a caret with `caret ≤ length text` the new text is
`before ++ p ++ syntax ++ q ++ after` with `p` and `q` each empty or a single space; deleting
the slice between the old and the new caret gives the old text back, the new text is longer
than the old text and the syntax together by 0, 1 or 2, and the syntax stands unmodified in
the inserted slice, behind `p`. -/
theorem smart_insert_only_inserts (st : State) (text syn : JSString) (caret : Nat)
    (hle : caret ≤ text.length) :
    ∃ p q : JSString, (p = [] ∨ p = [' ']) ∧ (q = [] ∨ q = [' ']) ∧
      (smart_insert { st with textarea := Textarea.at_caret text caret } syn).textarea.val =
        text.take caret ++ p ++ syn ++ q ++ text.drop caret ∧
      (smart_insert { st with textarea := Textarea.at_caret text caret } syn).textarea.caret =
        caret + (p ++ syn ++ q).length ∧
      ((smart_insert { st with textarea := Textarea.at_caret text caret } syn).textarea.val).take
          caret ++
        ((smart_insert { st with textarea := Textarea.at_caret text caret } syn).textarea.val).drop
          (smart_insert { st with textarea := Textarea.at_caret text caret } syn).textarea.caret =
        text ∧
      ((smart_insert { st with textarea := Textarea.at_caret text caret } syn).textarea.val).length =
        text.length + syn.length + (p.length + q.length) ∧
      p.length + q.length ≤ 2 ∧
      (((smart_insert { st with textarea := Textarea.at_caret text caret } syn).textarea.val).drop
        (caret + p.length)).take syn.length = syn := by
  obtain ⟨p, q, -, hp, -, hq, heq⟩ := smart_insert_decomposition st text syn caret
  have hlen : (text.take caret).length = caret := List.length_take_of_le hle
  have hval : (smart_insert { st with textarea := Textarea.at_caret text caret } syn).textarea.val
      = text.take caret ++ (p ++ syn ++ q) ++ text.drop caret := by
    rw [heq]; rfl
  have hcar : (smart_insert { st with textarea := Textarea.at_caret text caret } syn).textarea.caret
      = caret + (p ++ syn ++ q).length := by
    rw [heq]; rfl
  refine ⟨p, q, hp, hq, ?_, hcar, ?_, ?_, ?_, ?_⟩
  · rw [hval]; simp
  · rw [hcar, hval]
    have h1 : (text.take caret ++ (p ++ syn ++ q) ++ text.drop caret).take caret =
        text.take caret := by
      rw [List.append_assoc]
      exact List.take_left' hlen
    have h2 : (text.take caret ++ (p ++ syn ++ q) ++ text.drop caret).drop
        (caret + (p ++ syn ++ q).length) = text.drop caret := by
      have : (text.take caret ++ (p ++ syn ++ q)).length = caret + (p ++ syn ++ q).length := by
        simp [hlen]
      exact List.drop_left' this
    rw [h1, h2, List.take_append_drop]
  · rw [hval]
    have := List.length_take_of_le hle
    have hd := List.length_drop caret text
    simp only [List.length_append, this, hd]
    omega
  · rcases hp with h | h <;> rcases hq with h' | h' <;> subst h <;> subst h' <;> simp
  · rw [hval]
    have h3 : text.take caret ++ (p ++ syn ++ q) ++ text.drop caret =
        (text.take caret ++ p) ++ (syn ++ (q ++ text.drop caret)) := by simp
    have h4 : (text.take caret ++ p).length = caret + p.length := by simp [hlen]
    rw [h3, List.drop_left' h4]
    exact List.take_left' rfl

/-- C19, at the text `ab` with the caret between the letters and the syntax `x`. -/
theorem smart_insert_only_inserts_witness :
    ∃ p q : JSString, (p = [] ∨ p = [' ']) ∧ (q = [] ∨ q = [' ']) ∧
      (smart_insert { State.initial (Textarea.at_caret [] 0) with
          textarea := Textarea.at_caret "ab".toList 1 } "x".toList).textarea.val =
        "ab".toList.take 1 ++ p ++ "x".toList ++ q ++ "ab".toList.drop 1 ∧
      (smart_insert { State.initial (Textarea.at_caret [] 0) with
          textarea := Textarea.at_caret "ab".toList 1 } "x".toList).textarea.caret =
        1 + (p ++ "x".toList ++ q).length ∧
      ((smart_insert { State.initial (Textarea.at_caret [] 0) with
          textarea := Textarea.at_caret "ab".toList 1 } "x".toList).textarea.val).take 1 ++
        ((smart_insert { State.initial (Textarea.at_caret [] 0) with
          textarea := Textarea.at_caret "ab".toList 1 } "x".toList).textarea.val).drop
          (smart_insert { State.initial (Textarea.at_caret [] 0) with
            textarea := Textarea.at_caret "ab".toList 1 } "x".toList).textarea.caret =
        "ab".toList ∧
      ((smart_insert { State.initial (Textarea.at_caret [] 0) with
          textarea := Textarea.at_caret "ab".toList 1 } "x".toList).textarea.val).length =
        "ab".toList.length + "x".toList.length + (p.length + q.length) ∧
      p.length + q.length ≤ 2 ∧
      (((smart_insert { State.initial (Textarea.at_caret [] 0) with
          textarea := Textarea.at_caret "ab".toList 1 } "x".toList).textarea.val).drop
        (1 + p.length)).take "x".toList.length = "x".toList :=
  smart_insert_only_inserts (State.initial (Textarea.at_caret [] 0)) "ab".toList "x".toList 1
    (by decide)

/-! ## The claim on wrap_text_with_markdown -/

/-- C20 (wrapping the selection). For a selection from `start` to `stop` with
`start ≤ stop ≤ length text`, the new text is the text before the selection, the prefix, the
selected text, the suffix and the text after the selection; it is the same whether
`insertText` succeeds or the range replacement is taken; and for an empty selection it is the
prefix and the suffix inserted at the caret. -/
theorem wrap_text_with_markdown_selection (st : State) (text prefix_text suffix : JSString)
    (start stop : Nat) (hss : start ≤ stop) (hsl : stop ≤ text.length) :
    (wrap_text_with_markdown
        { st with textarea := { value := text, selectionStart := start, selectionEnd := stop } }
        prefix_text suffix).textarea.val =
      text.take start ++ prefix_text ++ (text.take stop).drop start ++ suffix ++ text.drop stop ∧
    (wrap_text_with_markdown
        { st with textarea := { value := text, selectionStart := start, selectionEnd := stop },
                  insertText_supported := true }
        prefix_text suffix).textarea.val =
      (wrap_text_with_markdown
        { st with textarea := { value := text, selectionStart := start, selectionEnd := stop },
                  insertText_supported := false }
        prefix_text suffix).textarea.val ∧
    (start = stop →
      (wrap_text_with_markdown
        { st with textarea := { value := text, selectionStart := start, selectionEnd := stop } }
        prefix_text suffix).textarea.val =
      text.take start ++ prefix_text ++ suffix ++ text.drop start) ∧
    (text.take start ++ (text.take stop).drop start ++ text.drop stop = text) := by
  have hmax : max start stop = stop := max_eq_right hss
  have hmin : min start stop = start := min_eq_left hss
  have hval : ∀ b : Bool, (wrap_text_with_markdown
        { st with textarea := { value := text, selectionStart := start, selectionEnd := stop },
                  insertText_supported := b }
        prefix_text suffix).textarea.val =
      text.take start ++ prefix_text ++ (text.take stop).drop start ++ suffix ++ text.drop stop := by
    intro b
    cases b <;>
      simp [wrap_text_with_markdown, Textarea.range, Textarea.set_range, Textarea.range_replace,
        Textarea.insertText, Textarea.val, substring, slice_to, slice_from, hmax, hmin]
  refine ⟨?_, ?_, ?_, ?_⟩
  · exact hval st.insertText_supported
  · rw [hval true, hval false]
  · intro h
    subst h
    have := hval st.insertText_supported
    rw [this]
    simp
  · have h1 : text.take start ++ (text.take stop).drop start = text.take stop := by
      have : text.take start = (text.take stop).take start := by
        rw [List.take_take, min_eq_left hss]
      rw [this]
      exact List.take_append_drop start (text.take stop)
    rw [h1]
    exact List.take_append_drop stop text

/-- C20, at the text `a bold b` with `bold` selected, wrapped in `**`: the text becomes
`a **bold** b` on both paths. -/
theorem wrap_text_with_markdown_selection_witness :
    (wrap_text_with_markdown
        { State.initial (Textarea.at_caret [] 0) with
          textarea := { value := "a bold b".toList, selectionStart := 2, selectionEnd := 6 } }
        "**".toList "**".toList).textarea.val =
      "a bold b".toList.take 2 ++ "**".toList ++ ("a bold b".toList.take 6).drop 2 ++ "**".toList
        ++ "a bold b".toList.drop 6 ∧
    "a bold b".toList.take 2 ++ "**".toList ++ ("a bold b".toList.take 6).drop 2 ++ "**".toList
        ++ "a bold b".toList.drop 6 = "a **bold** b".toList ∧
    (wrap_text_with_markdown
        { State.initial (Textarea.at_caret [] 0) with
          textarea := { value := "a bold b".toList, selectionStart := 2, selectionEnd := 6 },
          insertText_supported := false }
        "**".toList "**".toList).textarea.val = "a **bold** b".toList :=
  ⟨( wrap_text_with_markdown_selection (State.initial (Textarea.at_caret [] 0))
      "a bold b".toList "**".toList "**".toList 2 6 (by decide) (by decide)).1,
    by decide, by decide⟩

end compose_ui
